import Mathlib

/-
Verification of the Raft consensus CORE of the RedisLess repository
(`redisless/raft/src/{core.rs, log/mod.rs, log/memory.rs, node.rs, message.rs}`)
against its natural-language specification.

Shallow embedding conventions:
  * `u64` and `usize` machine integers are modelled as `Nat`.  The source
    panics on `u64`/`LogIndex`/`TermId` addition overflow (treated as fatal),
    so plain `Nat` addition is used there; `usize::saturating_add` and
    `checked_sub` are modelled explicitly (`satAdd`, `checkedSub`); the
    saturating `LogIndex` subtraction of the source coincides with truncated
    `Nat` subtraction.
  * `Bytes` is modelled as `List Nat`; `NodeId` as `Nat`.
  * `BTreeSet<NodeId>` is modelled as a duplicate-free `List Nat`, and the
    leader's `BTreeMap<NodeId, ReplicationState>` as an association list
    (keys are distinct by construction in `become_leader`).
  * Fallible Rust operations return `Option`/pairs with a success flag;
    a Rust `panic!`/failed `assert!` is modelled by an outer `none`.
  * The `RngCore` random source is modelled as a stream `Nat → Nat`
    together with a cursor; `next_u32` reads the stream modulo `2 ^ 32`.
-/

namespace Raft

/-- Largest value of the 64-bit `usize`/`u64` machine words of the source. -/
def USIZE_MAX : Nat := 2 ^ 64 - 1

/-- Model of `usize::saturating_add`. -/
def satAdd (a b : Nat) : Nat := min (a + b) USIZE_MAX

/-- Model of `u64::checked_sub` / `usize::checked_sub`. -/
def checkedSub (a b : Nat) : Option Nat := if b ≤ a then some (a - b) else none

/-- Model of `message.rs` `LogEntry { term, data }`. -/
structure LogEntry where
  term : Nat
  data : List Nat
deriving DecidableEq

/-- Model of `message.rs` `VoteRequest`. -/
structure VoteRequest where
  last_log_idx : Nat
  last_log_term : Nat
deriving DecidableEq

/-- Model of `message.rs` `VoteResponse`. -/
structure VoteResponse where
  vote_granted : Bool
deriving DecidableEq

/-- Model of `message.rs` `AppendRequest`. -/
structure AppendRequest where
  prev_log_idx : Nat
  prev_log_term : Nat
  leader_commit : Nat
  entries : List LogEntry
deriving DecidableEq

/-- Model of `message.rs` `AppendResponse`. -/
structure AppendResponse where
  success : Bool
  match_idx : Nat
  last_log_idx : Nat
deriving DecidableEq

/-- Model of `message.rs` `Rpc`. -/
inductive Rpc where
  | voteRequest (msg : VoteRequest)
  | voteResponse (msg : VoteResponse)
  | appendRequest (msg : AppendRequest)
  | appendResponse (msg : AppendResponse)
deriving DecidableEq

/-- Model of `message.rs` `Message { term, rpc }`; `rpc` is optional on the wire. -/
structure Message where
  term : Nat
  rpc : Option Rpc
deriving DecidableEq

/-- Model of `message.rs` `MessageDestination`. -/
inductive MessageDestination where
  | broadcast
  | to (node_id : Nat)
deriving DecidableEq

/-- Model of `message.rs` `SendableMessage`. -/
structure SendableMessage where
  message : Message
  dest : MessageDestination
deriving DecidableEq

/-- Model of `log/memory.rs` `InMemoryLog`.  The `VecDeque` front is the list head. -/
structure InMemoryLog where
  entries : List LogEntry
  prev_log_idx : Nat
  prev_log_term : Nat
  last_taken : Nat
  data_len : Nat
  data_capacity : Nat
deriving DecidableEq

/-- Model of `InMemoryLog::with_capacity` (the entries-capacity hint has no observable effect). -/
def InMemoryLog.with_capacity (data_capacity : Nat) : InMemoryLog :=
  { entries := [], prev_log_idx := 0, prev_log_term := 0, last_taken := 0,
    data_len := 0, data_capacity := data_capacity }

/-- Model of `InMemoryLog::new_unbounded`. -/
def InMemoryLog.new_unbounded : InMemoryLog := with_capacity USIZE_MAX

/-- Model of `InMemoryLog::entry_index`: position of log index `log_idx` in `entries`
(the `u64 → usize` conversion never fails on a 64-bit target). -/
def InMemoryLog.entry_index (l : InMemoryLog) (log_idx : Nat) : Option Nat := do
  let a ← checkedSub log_idx l.prev_log_idx
  checkedSub a 1

/-- Model of `InMemoryLog::pop_front`; `none` is the `Err(())` of the source. -/
def InMemoryLog.pop_front (l : InMemoryLog) : Option InMemoryLog := do
  let _ ← l.entry_index l.last_taken
  match l.entries with
  | [] => none
  | e :: rest =>
      some { l with entries := rest, prev_log_idx := l.prev_log_idx + 1, prev_log_term := e.term }

/-- Eviction loop of `InMemoryLog::append`: pop taken entries from the front until
`data_len + new_len` fits within `data_capacity`.  The source reads `self.data_len`
unchanged on every iteration (`pop_front` does not decrease it); `checked_add`
returning `None` behaves like a too-large sum because `data_capacity ≤ USIZE_MAX`.
Returns the possibly-mutated log and the success flag; fuel `entries.length + 1`
is enough because each `pop_front` removes one entry. -/
def InMemoryLog.appendLoop (new_len : Nat) : Nat → InMemoryLog → InMemoryLog × Bool
  | 0, l => (l, false)
  | fuel + 1, l =>
      if l.data_len + new_len ≤ l.data_capacity then
        ({ l with data_len := l.data_len + new_len }, true)
      else
        match l.pop_front with
        | none => (l, false)
        | some l' => appendLoop new_len fuel l'

/-- Model of `InMemoryLog::append`.  On failure the returned log keeps any front
evictions performed before the error (the source mutates `self` in place). -/
def InMemoryLog.appendEntry (l : InMemoryLog) (log_entry : LogEntry) : InMemoryLog × Bool :=
  if log_entry.data.length > l.data_capacity then (l, false)
  else
    match appendLoop log_entry.data.length (l.entries.length + 1) l with
    | (l', true) => ({ l' with entries := l'.entries ++ [log_entry] }, true)
    | (l', false) => (l', false)

/-- Model of `InMemoryLog::cancel_from`; returns the truncated log and the number
of removed entries, or `none` for `Err(())`. -/
def InMemoryLog.cancel_from (l : InMemoryLog) (from_log_idx : Nat) : Option (InMemoryLog × Nat) := do
  let from_index ← l.entry_index from_log_idx
  match checkedSub l.entries.length from_index with
  | none => none
  | some 0 => none
  | some cancelled_len =>
      some ({ l with entries := l.entries.take from_index }, cancelled_len)

/-- Model of `InMemoryLog::entry_len`. -/
def InMemoryLog.entry_len (log_entry : LogEntry) : Nat := 4 + log_entry.data.length

/-- Model of `InMemoryLog::get`. -/
def InMemoryLog.get (l : InMemoryLog) (log_idx : Nat) : Option LogEntry := do
  let index ← l.entry_index log_idx
  l.entries.get? index

/-- Model of `InMemoryLog::get_term`. -/
def InMemoryLog.get_term (l : InMemoryLog) (log_idx : Nat) : Option Nat :=
  if log_idx ≠ l.prev_log_idx then (l.get log_idx).map (fun e => e.term)
  else some l.prev_log_term

/-- Model of the provided `Log::get_len`. -/
def InMemoryLog.get_len (l : InMemoryLog) (log_idx : Nat) : Option Nat :=
  (l.get log_idx).map (fun e => entry_len e)

/-- Model of `InMemoryLog::last_index`. -/
def InMemoryLog.last_index (l : InMemoryLog) : Nat := l.prev_log_idx + l.entries.length

/-- Model of `InMemoryLog::last_term`. -/
def InMemoryLog.last_term (l : InMemoryLog) : Nat :=
  match l.entries.getLast? with
  | some e => e.term
  | none => l.prev_log_term

/-- Model of `InMemoryLog::take_next`; returns the taken entry and the updated log. -/
def InMemoryLog.take_next (l : InMemoryLog) : Option (LogEntry × InMemoryLog) := do
  let log_idx := l.last_taken + 1
  let log_entry ← l.get log_idx
  some (log_entry, { l with last_taken := log_idx })

/-- Model of `log/mod.rs` `LogState<L>` over the in-memory log. -/
structure LogState where
  log : InMemoryLog
  commit_idx : Nat
deriving DecidableEq

/-- Model of `LogState::new`. -/
def LogState.new (log : InMemoryLog) : LogState := { log := log, commit_idx := 0 }

/-- Model of `LogState::append` (delegates; the log may mutate even on failure). -/
def LogState.append (ls : LogState) (entry : LogEntry) : LogState × Bool :=
  match ls.log.appendEntry entry with
  | (l', ok) => ({ ls with log := l' }, ok)

/-- Model of `LogState::cancel_from` (delegates; the log is unchanged on failure). -/
def LogState.cancel_from (ls : LogState) (from_index : Nat) : Option (LogState × Nat) :=
  match ls.log.cancel_from from_index with
  | none => none
  | some (l', n) => some ({ ls with log := l' }, n)

/-- Model of `LogState::prev_index`. -/
def LogState.prev_index (ls : LogState) : Nat := ls.log.prev_log_idx

/-- Model of `LogState::prev_term`. -/
def LogState.prev_term (ls : LogState) : Nat := ls.log.prev_log_term

/-- Model of `LogState::get`: index 0 is mediated to `None`. -/
def LogState.get (ls : LogState) (index : Nat) : Option LogEntry :=
  if index = 0 then none else ls.log.get index

/-- Model of `LogState::get_term`: `prev_index` is mediated to `prev_term`,
then index 0 to `None`. -/
def LogState.get_term (ls : LogState) (index : Nat) : Option Nat :=
  if index = ls.prev_index then some ls.prev_term
  else if index = 0 then none
  else ls.log.get_term index

/-- Model of `LogState::get_len` (note: not index-0 mediated in the source). -/
def LogState.get_len (ls : LogState) (index : Nat) : Option Nat := ls.log.get_len index

/-- Model of `LogState::last_index`. -/
def LogState.last_index (ls : LogState) : Nat := ls.log.last_index

/-- Model of `LogState::last_term`. -/
def LogState.last_term (ls : LogState) : Nat := ls.log.last_term

/-- Model of `core.rs` `quorum_size`: `(peer_count.saturating_add(1)) / 2 + 1`. -/
def quorum_size (peer_count : Nat) : Nat := satAdd peer_count 1 / 2 + 1

--
-- The consensus state machine of `core.rs`.
--

/-- Model of `core.rs` `ReplicationState`. -/
structure ReplicationState where
  next_idx : Nat
  match_idx : Nat
  inflight : Option Nat
  send_probe : Bool
  send_heartbeat : Bool
deriving DecidableEq

/-- Model of `core.rs` `LeadershipState` (the follower map is an association list). -/
inductive LeadershipState where
  | follower (leader : Option Nat) (election_ticks : Nat) (random_election_ticks : Nat)
  | candidate (votes_granted : List Nat) (election_ticks : Nat)
  | leader (followers : List (Nat × ReplicationState)) (heartbeat_ticks : Nat)
deriving DecidableEq

/-- Model of `node.rs` `Config`. -/
structure Config where
  election_timeout_ticks : Nat
  heartbeat_interval_ticks : Nat
  replication_chunk_size : Nat
deriving DecidableEq

/-- Model of `node.rs` `AppendError`; the log error payload carries no information
in the in-memory log (`type Error = ()`). -/
inductive AppendError where
  | cancelled (data : List Nat)
  | logErr
deriving DecidableEq

/-- Model of `core.rs` `State<L, Random, NodeId>`: the complete state of a Raft node.
The random source is a stream `randSeq` read at cursor `randPos`. -/
structure RaftState where
  node_id : Nat
  peers : List Nat
  randSeq : Nat → Nat
  randPos : Nat
  config : Config
  current_term : Nat
  voted_for : Option Nat
  leadership : LeadershipState
  log : LogState

/-- Largest value of a `u32`. -/
def U32_MAX : Nat := 2 ^ 32 - 1

/-- Model of `RngCore::next_u32` on the stream-based random source. -/
def nextU32 (s : RaftState) : Nat × RaftState :=
  (s.randSeq s.randPos % 2 ^ 32, { s with randPos := s.randPos + 1 })

/-- Model of `core.rs` `random_election_timeout` applied to an already-drawn
random value: `checked_rem` of zero ticks yields 0, and the final addition is
`u32::saturating_add`. -/
def randTimeoutOf (r ticks : Nat) : Nat :=
  let rem := if ticks = 0 then 0 else r % ticks
  min (ticks + rem) U32_MAX

/-- Model of `State::random_election_timeout`: draw from the random source. -/
def nextElectionTimeout (s : RaftState) : Nat × RaftState :=
  let (r, s') := nextU32 s
  (randTimeoutOf r s.config.election_timeout_ticks, s')

/-- Lookup in the leader's follower association list (`BTreeMap::get`). -/
def lookupFollower : List (Nat × ReplicationState) → Nat → Option ReplicationState
  | [], _ => none
  | (k, r) :: rest, from_id => if k = from_id then some r else lookupFollower rest from_id

/-- Pointwise update of the leader's follower association list (`BTreeMap::get_mut`). -/
def updateFollower : List (Nat × ReplicationState) → Nat → ReplicationState →
    List (Nat × ReplicationState)
  | [], _, _ => []
  | (k, r) :: rest, from_id, r' =>
      if k = from_id then (k, r') :: rest else (k, r) :: updateFollower rest from_id r'

/-- Model of `Iterator::max` over the remaining agree indexes. -/
def iterMax : List Nat → Option Nat
  | [] => none
  | x :: xs =>
      match iterMax xs with
      | none => some x
      | some m => some (max x m)

/-- Model of `State::quorum_size`. -/
def RaftState.quorum_size (s : RaftState) : Nat := Raft.quorum_size s.peers.length

/-- Model of `State::is_leader`. -/
def RaftState.is_leader (s : RaftState) : Bool :=
  match s.leadership with
  | .leader _ _ => true
  | _ => false

/-- Whether the node is currently a follower (used by the source's `assert_match!`). -/
def LeadershipState.isFollower : LeadershipState → Bool
  | .follower _ _ _ => true
  | _ => false

/-- Model of `State::advance_commit_idx` (`core.rs` lines 500-534): sort the
`match_idx` values of all followers together with this node's `last_index`
descending, take the value at position `quorum_size - 1`, and accept it only if
its entry's term is the current term. -/
def advance_commit_idx (s : RaftState) : RaftState :=
  match s.leadership with
  | .leader followers _ =>
      let match_idxs := (followers.map fun f => f.2.match_idx) ++ [s.log.last_index]
      let sorted := List.insertionSort (fun a b => a ≤ b) match_idxs
      let agree_idxs := sorted.reverse.drop (s.quorum_size - 1)
      let commit_idx :=
        match iterMax agree_idxs with
        | some agree_idx =>
            if s.log.get_term agree_idx = some s.current_term then
              max s.log.commit_idx agree_idx
            else s.log.commit_idx
        | none => s.log.commit_idx
      { s with log := { s.log with commit_idx := commit_idx } }
  | _ => s

/-- Model of `State::client_request` (`core.rs` lines 479-494).  Returns the new
state and `none` on success, or the `AppendError`.  On a log error the log keeps
whatever front evictions the failed `InMemoryLog::append` performed. -/
def client_request (s : RaftState) (data : List Nat) : RaftState × Option AppendError :=
  let entry : LogEntry := { term := s.current_term, data := data }
  match s.leadership with
  | .leader _ _ =>
      match s.log.append entry with
      | (log', true) => (advance_commit_idx { s with log := log' }, none)
      | (log', false) => ({ s with log := log' }, some .logErr)
  | _ => (s, some (.cancelled entry.data))

/-- Model of `State::become_leader`: on quorum, initialize every follower's
replication state and append the no-op entry of the new term (result ignored). -/
def become_leader (s : RaftState) : RaftState :=
  match s.leadership with
  | .candidate votes_granted _ =>
      if s.quorum_size ≤ votes_granted.length then
        let followers := s.peers.map fun id =>
          (id, { next_idx := s.log.last_index + 1, match_idx := 0, inflight := none,
                 send_probe := false, send_heartbeat := false : ReplicationState })
        (client_request { s with leadership := .leader followers 0 } []).1
      else s
  | _ => s

/-- Model of `State::request_vote`. -/
def request_vote (s : RaftState) : Option Message :=
  match s.leadership with
  | .candidate _ _ =>
      some { term := s.current_term,
             rpc := some (.voteRequest
               { last_log_idx := s.log.last_index, last_log_term := s.log.last_term }) }
  | _ => none

/-- Model of `State::timeout` (`core.rs` lines 296-322). -/
def timeout (s : RaftState) : RaftState × Option SendableMessage :=
  match s.leadership with
  | .leader _ _ => (s, none)
  | _ =>
      let s1 := { s with current_term := s.current_term + 1, voted_for := some s.node_id }
      let (et, s2) := nextElectionTimeout s1
      let s3 := { s2 with leadership := .candidate [s2.node_id] et }
      let s4 := advance_commit_idx (become_leader s3)
      (s4, (request_vote s4).map fun m => { message := m, dest := .broadcast })

/-- Followers map with every `send_heartbeat` flag raised (leader heartbeat timeout). -/
def setHeartbeats (fs : List (Nat × ReplicationState)) : List (Nat × ReplicationState) :=
  fs.map fun kr => (kr.1, { kr.2 with send_heartbeat := true })

/-- Model of `State::timer_tick` (`core.rs` lines 223-254). -/
def timer_tick (s : RaftState) : RaftState × Option SendableMessage :=
  match s.leadership with
  | .follower leader election_ticks random_election_ticks =>
      match election_ticks - 1 with
      | 0 => timeout s
      | n + 1 => ({ s with leadership := .follower leader (n + 1) random_election_ticks }, none)
  | .candidate votes_granted election_ticks =>
      match election_ticks - 1 with
      | 0 => timeout s
      | n + 1 => ({ s with leadership := .candidate votes_granted (n + 1) }, none)
  | .leader followers heartbeat_ticks =>
      match heartbeat_ticks - 1 with
      | 0 =>
          ({ s with leadership :=
              .leader (setHeartbeats followers) s.config.heartbeat_interval_ticks }, none)
      | n + 1 => ({ s with leadership := .leader followers (n + 1) }, none)

/-- Model of `State::update_term` (`core.rs` lines 872-896): a message with a newer
term makes the node a follower with no known leader; election ticks are preserved
from follower/candidate and freshly randomized when stepping down from leader. -/
def update_term (s : RaftState) (msg_term : Nat) : RaftState :=
  if s.current_term < msg_term then
    let (ret, s1) := nextElectionTimeout s
    let election_ticks :=
      match s1.leadership with
      | .follower _ e _ => e
      | .candidate _ e => e
      | .leader _ _ => ret
    { s1 with current_term := msg_term,
              leadership := .follower none election_ticks ret,
              voted_for := none }
  else s

/-- Model of `State::handle_vote_request` (`core.rs` lines 543-617).  The outer
`none` is the source's `assert!(msg_term <= current_term)`. -/
def handle_vote_request (s : RaftState) (msg_term : Nat) (msg : VoteRequest)
    (from_id : Nat) : Option (RaftState × Option SendableMessage) :=
  let last_log_idx := s.log.last_index
  let last_log_term := s.log.last_term
  let log_ok := last_log_term < msg.last_log_term ∨
      (msg.last_log_term = last_log_term ∧ last_log_idx ≤ msg.last_log_idx)
  -- `votedFor[i] \in {Nil, j}`: the source's `map(|vote| &from == vote).unwrap_or(true)`
  let grant := msg_term = s.current_term ∧ log_ok ∧
      (s.voted_for = none ∨ s.voted_for = some from_id)
  if ¬ msg_term ≤ s.current_term then none
  else
    let s1 := if grant then { s with voted_for := some from_id } else s
    let s2 :=
      if grant then
        match s1.leadership with
        | .follower leader _ random_election_ticks =>
            { s1 with leadership := .follower leader random_election_ticks random_election_ticks }
        | _ => s1
      else s1
    some (s2, some { message := { term := s2.current_term,
                                  rpc := some (.voteResponse { vote_granted := decide grant }) },
                     dest := .to from_id })

/-- Model of `State::handle_vote_response` (`core.rs` lines 621-646).  The insert
into `votes_granted` keeps set semantics (membership and size) of the `BTreeSet`. -/
def handle_vote_response (s : RaftState) (msg_term : Nat) (msg : VoteResponse)
    (from_id : Nat) : Option (RaftState × Option SendableMessage) :=
  if ¬ msg_term = s.current_term then none
  else
    match s.leadership with
    | .candidate votes_granted election_ticks =>
        if msg.vote_granted then
          let votes' := if from_id ∈ votes_granted then votes_granted
                        else votes_granted ++ [from_id]
          some ({ s with leadership := .candidate votes' election_ticks }, none)
        else some (s, none)
    | _ => some (s, none)

/-- Conflict-resolution walk of `State::handle_append_request` (`core.rs` lines
743-775) over `msg.entries` with indices `prev_log_idx+1, prev_log_idx+2, …`.
Returns the state after the walk together with `last_processed_idx`; the outer
`none` is the source's `assert!(msg_entry_log_idx > self.log.commit_idx)` before
a conflict truncation. -/
def walkEntries (s : RaftState) (prev_idx : Nat) :
    List LogEntry → Option (RaftState × Nat)
  | [] => some (s, prev_idx)
  | e :: rest =>
      let i := prev_idx + 1
      if i = s.log.last_index + 1 then
        match s.log.append e with
        | (log', true) => walkEntries { s with log := log' } i rest
        | (log', false) => some ({ s with log := log' }, prev_idx)
      else
        match s.log.get_term i with
        | some our_entry_log_term =>
            if our_entry_log_term ≠ e.term then
              if ¬ s.log.commit_idx < i then none
              else
                match s.log.cancel_from i with
                | none => some (s, prev_idx)
                | some (log', _) =>
                    match LogState.append log' e with
                    | (log'', true) => walkEntries { s with log := log'' } i rest
                    | (log'', false) => some ({ s with log := log'' }, prev_idx)
            else walkEntries s i rest
        | none => some (s, prev_idx)

/-- Model of `State::handle_append_request` (`core.rs` lines 652-803).  The outer
`none` covers the source's `assert!`/`assert_true!`/`assert_match!`/`panic!`
(message from the future, append received while leader at the same term, and the
truncation-below-commit assert inside the walk). -/
def handle_append_request (s : RaftState) (msg_term : Nat) (msg : AppendRequest)
    (from_id : Nat) : Option (RaftState × Option SendableMessage) :=
  let prev_log_idx := msg.prev_log_idx
  let our_prev_log_term := s.log.get_term prev_log_idx
  let log_ok := prev_log_idx = 0 ∨ some msg.prev_log_term = our_prev_log_term
  if ¬ msg_term ≤ s.current_term then none
  else do
    let s1 ←
      if msg_term = s.current_term then
        match s.leadership with
        | .candidate _ _ =>
            let (ret, s') := nextElectionTimeout s
            some { s' with leadership := .follower (some from_id) ret ret }
        | .follower _ _ random_election_ticks =>
            some { s with leadership := .follower (some from_id) random_election_ticks
                            random_election_ticks }
        | .leader _ _ => none
      else some s
    if msg_term < s1.current_term then
      some (s1, some { message := { term := s1.current_term,
                                    rpc := some (.appendResponse
                                      { success := false,
                                        match_idx := s1.log.prev_index,
                                        last_log_idx := s1.log.last_index }) },
                       dest := .to from_id })
    else if ¬ msg_term = s1.current_term then none
    else if ¬ s1.leadership.isFollower then none
    else if ¬ log_ok then
      some (s1, some { message := { term := s1.current_term,
                                    rpc := some (.appendResponse
                                      { success := false,
                                        match_idx := s1.log.prev_index,
                                        last_log_idx := s1.log.last_index }) },
                       dest := .to from_id })
    else
      let msg_last_log_idx := prev_log_idx + msg.entries.length
      match walkEntries s1 prev_log_idx msg.entries with
      | none => none
      | some (s2, last_processed_idx) =>
          let leader_commit := min msg.leader_commit last_processed_idx
          let s3 :=
            if s2.log.commit_idx < leader_commit then
              { s2 with log := { s2.log with commit_idx := leader_commit } }
            else s2
          some (s3, some { message := { term := s3.current_term,
                                        rpc := some (.appendResponse
                                          { success := true,
                                            match_idx := min msg_last_log_idx s3.log.last_index,
                                            last_log_idx := s3.log.last_index }) },
                           dest := .to from_id })

/-- Probe-rewind loop of `State::handle_append_response` (`core.rs` lines 850-864):
rewind `next_idx` one entry at a time while the accumulated approximate entry
sizes still fit within the remaining replication chunk budget.  The fuel is the
starting `next_idx`, which bounds the number of decrements. -/
def rewindNext (logSt : LogState) (match_idx : Nat) : Nat → Nat → Nat → Nat
  | 0, _, next_idx => next_idx
  | fuel + 1, chunk_size_remaining, next_idx =>
      match next_idx with
      | 0 => 0
      | n + 1 =>
          if n ≤ match_idx then n + 1
          else
            match logSt.get_len (n + 1) with
            | none => n + 1
            | some entry_len =>
                match checkedSub chunk_size_remaining entry_len with
                | none => n + 1
                | some chunk' => rewindNext logSt match_idx fuel chunk' n

/-- Model of `State::handle_append_response` (`core.rs` lines 807-869).  The outer
`none` is the source's `assert!(msg_term == current_term)`. -/
def handle_append_response (s : RaftState) (msg_term : Nat) (msg : AppendResponse)
    (from_id : Nat) : Option (RaftState × Option SendableMessage) :=
  if ¬ msg_term = s.current_term then none
  else
    match s.leadership with
    | .leader followers heartbeat_ticks =>
        match lookupFollower followers from_id with
        | none => some (s, none)
        | some repl =>
            let repl' :=
              if msg.success then
                let inflight' :=
                  match repl.inflight with
                  | none => none
                  | some i => if i ≤ msg.match_idx then none else some i
                let next' := if repl.next_idx < msg.match_idx + 1 then msg.match_idx + 1
                             else repl.next_idx
                let mtch' := if repl.match_idx < msg.match_idx then msg.match_idx
                             else repl.match_idx
                { repl with inflight := inflight', next_idx := next', match_idx := mtch',
                            send_probe := false }
              else
                let clamped := max (min (repl.next_idx - 1) (msg.last_log_idx + 1))
                                   (msg.match_idx + 1)
                let next' := rewindNext s.log msg.match_idx clamped
                               s.config.replication_chunk_size clamped
                { repl with next_idx := next', send_probe := true, inflight := none }
            some ({ s with leadership :=
                      .leader (updateFollower followers from_id repl') heartbeat_ticks }, none)
    | _ => some (s, none)

/-- Model of `State::receive` (`core.rs` lines 918-959): drop messages from unknown
peers, advance the term, dispatch by RPC variant (dropping stale responses), then
run `become_leader` and `advance_commit_idx`. -/
def receive (s : RaftState) (msg : Message) (from_id : Nat) :
    Option (RaftState × Option SendableMessage) :=
  if ¬ from_id ∈ s.peers then some (s, none)
  else do
    let s0 := update_term s msg.term
    let (s1, reply) ←
      match msg.rpc with
      | some (.voteRequest request) => handle_vote_request s0 msg.term request from_id
      | some (.voteResponse response) =>
          if msg.term < s0.current_term then some (s0, none)
          else handle_vote_response s0 msg.term response from_id
      | some (.appendRequest request) => handle_append_request s0 msg.term request from_id
      | some (.appendResponse response) =>
          if msg.term < s0.current_term then some (s0, none)
          else handle_append_response s0 msg.term response from_id
      | none => some (s0, none)
    some (advance_commit_idx (become_leader s1), reply)

/-- Entry-collection loop of `State::append_entries` (`core.rs` lines 385-419):
collect entries starting at `idx`, always including the first and stopping when
the accumulated approximate sizes would exceed the chunk budget, the end of the
log is reached (`fuel` counts the remaining indices up to `last_log_idx`), or an
entry cannot be fetched. -/
def collectEntries (logSt : LogState) (max_entries_size : Nat) :
    Nat → Nat → Nat → List LogEntry
  | 0, _, _ => []
  | fuel + 1, idx, entries_size =>
      match logSt.get idx with
      | none => []
      | some log_entry =>
          let first := entries_size = 0
          if ¬ first ∧ entries_size = max_entries_size then []
          else
            let entries_size' := satAdd entries_size (InMemoryLog.entry_len log_entry)
            if first ∨ entries_size' ≤ max_entries_size then
              log_entry :: collectEntries logSt max_entries_size fuel (idx + 1) entries_size'
            else []

/-- Model of `State::append_entries` (`core.rs` lines 348-444): generate at most
one `AppendRequest` for the given peer, marking it inflight. -/
def append_entries (s : RaftState) (to_node_id : Nat) :
    RaftState × Option SendableMessage :=
  match s.leadership with
  | .leader followers heartbeat_ticks =>
      match lookupFollower followers to_node_id with
      | none => (s, none)
      | some repl =>
          let last_log_idx := s.log.last_index
          let next_idx := repl.next_idx
          let send_entries := next_idx ≤ last_log_idx ∧ ¬ repl.send_probe = true
          if ¬ send_entries ∧ ¬ repl.send_heartbeat = true then (s, none)
          else if repl.inflight.isSome then (s, none)
          else
            let prev_log_idx := next_idx - 1
            let maybe_prev_log_term :=
              if ¬ prev_log_idx = 0 then s.log.get_term prev_log_idx else some 0
            match maybe_prev_log_term with
            | none => (s, none)
            | some prev_log_term =>
                let entries :=
                  if send_entries then
                    collectEntries s.log s.config.replication_chunk_size
                      (last_log_idx + 1 - next_idx) next_idx 0
                  else []
                let last_entry :=
                  if send_entries then prev_log_idx + entries.length else prev_log_idx
                let repl' := { repl with send_heartbeat := false, inflight := some last_entry }
                ({ s with leadership :=
                     .leader (updateFollower followers to_node_id repl') heartbeat_ticks },
                 some { message := { term := s.current_term,
                                     rpc := some (.appendRequest
                                       { prev_log_idx := prev_log_idx,
                                         prev_log_term := prev_log_term,
                                         leader_commit := min s.log.commit_idx last_entry,
                                         entries := entries }) },
                        dest := .to to_node_id })
  | _ => (s, none)

/-- Model of `Node::append_entries` (`node.rs` lines 221-226): chain
`State::append_entries` over every peer (state-mutating part). -/
def append_entries_all (s : RaftState) : RaftState :=
  s.peers.foldl (fun st p => (append_entries st p).1) s

/-- Model of `State::new` (`core.rs` lines 107-131): remove `node_id` from the
peer set and draw the initial randomized election timeout. -/
def RaftState.new (node_id : Nat) (peers : List Nat) (log : InMemoryLog)
    (randSeq : Nat → Nat) (config : Config) : RaftState :=
  let peers' := (peers.dedup).filter fun p => ¬ p = node_id
  let r := randSeq 0 % 2 ^ 32
  let random_election_ticks := randTimeoutOf r config.election_timeout_ticks
  { node_id := node_id, peers := peers', randSeq := randSeq, randPos := 1,
    config := config, current_term := 0, voted_for := none,
    leadership := .follower none random_election_ticks random_election_ticks,
    log := LogState.new log }

/-- Events a host can drive a `Node` with: `Node::append`, `Node::receive`,
`Node::timer_tick`. -/
inductive Event where
  | clientAppend (data : List Nat)
  | deliver (msg : Message) (from_id : Nat)
  | tick

/-- One host-level event against a `Node` (`node.rs`): the core event followed by
draining the per-peer `append_entries` messages.  `Node::append` returns its
error before any `append_entries` work; `none` models a panic of the core. -/
def nodeStep (s : RaftState) : Event → Option RaftState
  | .clientAppend data =>
      match client_request s data with
      | (s', some _) => some s'
      | (s', none) => some (append_entries_all s')
  | .deliver msg from_id =>
      (receive s msg from_id).map fun r => append_entries_all r.1
  | .tick => some (append_entries_all (timer_tick s).1)

/-- Run a sequence of host events; a panicking event stops the run. -/
def run (s : RaftState) : List Event → RaftState
  | [] => s
  | e :: es =>
      match nodeStep s e with
      | none => s
      | some s' => run s' es

/-- Leader state used to exhibit the failing-append mutation: the bounded log
holds two entries (5 bytes of data at capacity 5), the first already taken. -/
def c7LeaderState : RaftState :=
  { node_id := 1, peers := [2, 3], randSeq := fun _ => 0, randPos := 0,
    config := { election_timeout_ticks := 5, heartbeat_interval_ticks := 1,
                replication_chunk_size := 100 },
    current_term := 1, voted_for := some 1,
    leadership := .leader
      [(2, { next_idx := 3, match_idx := 0, inflight := none,
             send_probe := false, send_heartbeat := false }),
       (3, { next_idx := 3, match_idx := 0, inflight := none,
             send_probe := false, send_heartbeat := false })] 0,
    log := { log := { entries := [{ term := 1, data := [7, 7] }, { term := 1, data := [7, 7, 7] }],
                      prev_log_idx := 0, prev_log_term := 0, last_taken := 1,
                      data_len := 5, data_capacity := 5 },
             commit_idx := 0 } }

--
-- Claim C8: duplicate AppendResponse delivery.
--

/-- Model of `State::replication_state` (query). -/
def RaftState.replication_state (s : RaftState) (peer_node_id : Nat) :
    Option ReplicationState :=
  match s.leadership with
  | .leader followers _ => lookupFollower followers peer_node_id
  | _ => none

/-- Replication state of the single follower in the duplicate-delivery witness. -/
def c8Repl : ReplicationState :=
  { next_idx := 5, match_idx := 3, inflight := some 5, send_probe := false,
    send_heartbeat := false }

/-- Leader state used for the duplicate-delivery witness. -/
def c8State : RaftState :=
  { node_id := 1, peers := [2], randSeq := fun _ => 0, randPos := 0,
    config := { election_timeout_ticks := 5, heartbeat_interval_ticks := 1,
                replication_chunk_size := 0 },
    current_term := 0, voted_for := none,
    leadership := .leader [(2, c8Repl)] 0,
    log := { log := InMemoryLog.with_capacity 0, commit_idx := 0 } }

/-- Replication state of the follower in the probe-collapse scenario:
`next_idx = 1000`, nothing matched yet. -/
def c2Repl : ReplicationState :=
  { next_idx := 1000, match_idx := 0, inflight := none, send_probe := false,
    send_heartbeat := false }

/-- Leader state for the probe-collapse scenario: 20 live entries of empty data,
a generous chunk budget of 100 bytes. -/
def c2State : RaftState :=
  { node_id := 1, peers := [2], randSeq := fun _ => 0, randPos := 0,
    config := { election_timeout_ticks := 5, heartbeat_interval_ticks := 1,
                replication_chunk_size := 100 },
    current_term := 1, voted_for := some 1,
    leadership := .leader [(2, c2Repl)] 0,
    log := { log := { entries := List.replicate 20 { term := 1, data := [] },
                      prev_log_idx := 0, prev_log_term := 0, last_taken := 0,
                      data_len := 0, data_capacity := USIZE_MAX },
             commit_idx := 0 } }

/-- Leader state after the rejection is processed: the chunk-batching loop has
rewound `next_idx` all the way to `match_idx + 1 = 1`. -/
def c2After : RaftState :=
  { c2State with
      leadership := .leader
        [(2, { next_idx := 1, match_idx := 0, inflight := none, send_probe := true,
               send_heartbeat := false })] 0 }

/-- Append request used in the C3 witness: one entry after an empty log. -/
def c3Msg : AppendRequest :=
  { prev_log_idx := 0, prev_log_term := 0, leader_commit := 0,
    entries := [{ term := 0, data := [5] }] }

/-- Fresh follower receiving the C3 witness request. -/
def c3State : RaftState :=
  RaftState.new 1 [1, 2] (InMemoryLog.with_capacity 100) (fun _ => 0)
    { election_timeout_ticks := 5, heartbeat_interval_ticks := 1,
      replication_chunk_size := 100 }

/-- State after the C3 witness request: the entry is appended and the sender is
recorded as leader. -/
def c3After : RaftState :=
  { node_id := 1, peers := [2], randSeq := fun _ => 0, randPos := 1,
    config := { election_timeout_ticks := 5, heartbeat_interval_ticks := 1,
                replication_chunk_size := 100 },
    current_term := 0, voted_for := none,
    leadership := .follower (some 2) 5 5,
    log := { log := { entries := [{ term := 0, data := [5] }], prev_log_idx := 0,
                      prev_log_term := 0, last_taken := 0, data_len := 1,
                      data_capacity := 100 },
             commit_idx := 0 } }

/-- Reply to the C3 witness request. -/
def c3Reply : SendableMessage :=
  { message := { term := 0,
                 rpc := some (.appendResponse
                   { success := true, match_idx := 1, last_log_idx := 1 }) },
    dest := .to 2 }

end Raft

namespace Raft

--
-- Basic facts about the log embedding, shared by several claims below.
--

theorem checkedSub_eq_some {a b c : Nat} : checkedSub a b = some c ↔ b ≤ a ∧ c = a - b := by
  unfold checkedSub
  split
  · simp_all [eq_comm]
  · simp_all

theorem checkedSub_isSome {a b : Nat} : (checkedSub a b).isSome = true ↔ b ≤ a := by
  unfold checkedSub
  split <;> simp_all

theorem entry_index_eq {l : InMemoryLog} {i : Nat} :
    l.entry_index i =
      if l.prev_log_idx + 1 ≤ i then some (i - l.prev_log_idx - 1) else none := by
  unfold InMemoryLog.entry_index checkedSub
  by_cases h1 : l.prev_log_idx ≤ i
  · by_cases h2 : l.prev_log_idx + 1 ≤ i
    · simp only [if_pos h1, Option.bind_eq_bind, Option.some_bind, if_pos h2]
      have : 1 ≤ i - l.prev_log_idx := by omega
      simp only [if_pos this]
    · simp only [if_pos h1, Option.bind_eq_bind, Option.some_bind, if_neg h2]
      have : ¬ 1 ≤ i - l.prev_log_idx := by omega
      simp [this]
  · have h2 : ¬ l.prev_log_idx + 1 ≤ i := by omega
    simp [h1, h2]

theorem entry_index_eq_some {l : InMemoryLog} {i k : Nat} :
    l.entry_index i = some k ↔ l.prev_log_idx + 1 ≤ i ∧ k = i - l.prev_log_idx - 1 := by
  rw [entry_index_eq]
  split
  · simp_all [eq_comm]
  · simp_all

theorem entry_index_eq_none {l : InMemoryLog} {i : Nat} :
    l.entry_index i = none ↔ i ≤ l.prev_log_idx := by
  rw [entry_index_eq]
  split
  · simp_all
    omega
  · simp_all
    omega

--
-- Claim C1: quorum size formula.
--

/-- Claim C1 (counterexample): the claimed identity `quorum_size(n) = ⌊n/2⌋ + 1`
fails at the concrete peer count `n = 1`, where the source returns
`(1 + 1) / 2 + 1 = 2` while the claim predicts `⌊1/2⌋ + 1 = 1`. -/
theorem quorum_size_claim_fails_at_one : quorum_size 1 = 2 ∧ ¬ quorum_size 1 = 1 / 2 + 1 := by
  constructor
  · decide
  · decide

/-- Claim C1 (amended): for every peer count `n` below `usize::MAX`,
`quorum_size(n) = ⌊(n + 1) / 2⌋ + 1`, that is, `⌊m/2⌋ + 1` applied to the peer
count after the saturating `+1`. -/
theorem quorum_size_eq (n : Nat) (h : n < USIZE_MAX) : quorum_size n = (n + 1) / 2 + 1 := by
  unfold quorum_size satAdd
  have : min (n + 1) USIZE_MAX = n + 1 := by omega
  rw [this]

/-- Claim C1 (witness): the amended formula evaluated at peer count 5. -/
theorem quorum_size_eq_witness : 5 < USIZE_MAX ∧ quorum_size 5 = (5 + 1) / 2 + 1 :=
  ⟨by decide, quorum_size_eq 5 (by decide)⟩

--
-- Claim C6: cancel_from of the in-memory log.
--

/-- Normal form of `InMemoryLog::cancel_from`: it succeeds exactly when
`prev_log_idx < i ≤ last_index`, truncating the entries list at the position of
`i` and reporting the number of removed entries. -/
theorem cancel_from_eq (l : InMemoryLog) (i : Nat) :
    l.cancel_from i =
      if l.prev_log_idx < i ∧ i ≤ l.last_index then
        some ({ l with entries := l.entries.take (i - l.prev_log_idx - 1) },
              l.entries.length - (i - l.prev_log_idx - 1))
      else none := by
  unfold InMemoryLog.cancel_from
  rw [entry_index_eq]
  unfold InMemoryLog.last_index
  by_cases h1 : l.prev_log_idx + 1 ≤ i
  · simp only [if_pos h1, Option.bind_eq_bind, Option.some_bind]
    unfold checkedSub
    by_cases h2 : i - l.prev_log_idx - 1 ≤ l.entries.length
    · simp only [if_pos h2]
      by_cases h3 : l.entries.length - (i - l.prev_log_idx - 1) = 0
      · rw [h3]
        have : ¬ (l.prev_log_idx < i ∧ i ≤ l.prev_log_idx + l.entries.length) := by omega
        simp [this]
      · have h4 : l.prev_log_idx < i ∧ i ≤ l.prev_log_idx + l.entries.length := by omega
        simp only [if_pos h4]
    · simp only [if_neg h2]
      have : ¬ (l.prev_log_idx < i ∧ i ≤ l.prev_log_idx + l.entries.length) := by omega
      simp [this]
  · simp only [if_neg h1, Option.bind_eq_bind, Option.none_bind]
    have : ¬ (l.prev_log_idx < i ∧ i ≤ l.prev_log_idx + l.entries.length) := by omega
    simp [this]

/-- Claim C6 (amended): `cancel_from(i)` deletes entries `i..=last_index` (the
kept entries are exactly the prefix before `i`, so the new `last_index` is
`i - 1` and the number of removed entries is `last_index + 1 - i`), and it fails
exactly when `i ≤ prev_index` or `i > last_index` — not when `i ≤
last_taken_index` or `i > last_index + 1` as claimed. -/
theorem cancel_from_spec (l : InMemoryLog) (i : Nat) :
    ((l.cancel_from i).isSome ↔ (l.prev_log_idx < i ∧ i ≤ l.last_index)) ∧
    (∀ l' n, l.cancel_from i = some (l', n) →
      l'.entries = l.entries.take (i - l.prev_log_idx - 1) ∧
      n = l.last_index + 1 - i ∧
      l'.last_index = i - 1 ∧
      l'.prev_log_idx = l.prev_log_idx ∧ l'.last_taken = l.last_taken) := by
  rw [cancel_from_eq]
  by_cases h : l.prev_log_idx < i ∧ i ≤ l.last_index
  · simp only [if_pos h]
    constructor
    · simp [h]
    · intro l' n he
      injection he with he
      injection he with he1 he2
      subst he1
      subst he2
      have hlast := h.2
      unfold InMemoryLog.last_index at hlast ⊢
      refine ⟨rfl, by omega, ?_, rfl, rfl⟩
      simp only [List.length_take]
      omega
  · simp only [if_neg h]
    constructor
    · simp [h]
    · intro l' n he
      exact absurd he (by simp)

/-- Claim C6 (witness): on a log holding one live entry and nothing taken,
`cancel_from 1` succeeds and removes exactly that entry. -/
theorem cancel_from_spec_witness :
    (InMemoryLog.cancel_from
        { entries := [{ term := 1, data := [] }], prev_log_idx := 0, prev_log_term := 0,
          last_taken := 0, data_len := 0, data_capacity := 0 } 1).isSome := by
  have h := (cancel_from_spec
    { entries := [{ term := 1, data := [] }], prev_log_idx := 0, prev_log_term := 0,
      last_taken := 0, data_len := 0, data_capacity := 0 } 1).1
  exact h.mpr (by decide)

/-- Claim C6 (counterexample): on a log with one live entry, nothing taken and
`last_index = 1`, the call `cancel_from 2` fails even though the claimed failure
condition `2 ≤ last_taken_index ∨ 2 > last_index + 1` does not hold. -/
theorem cancel_from_claim_fails_at_two :
    InMemoryLog.cancel_from
        { entries := [{ term := 1, data := [] }], prev_log_idx := 0, prev_log_term := 0,
          last_taken := 0, data_len := 0, data_capacity := 0 } 2 = none ∧
    ¬ (2 ≤ InMemoryLog.last_taken
          { entries := [{ term := 1, data := [] }], prev_log_idx := 0, prev_log_term := 0,
            last_taken := 0, data_len := 0, data_capacity := 0 } ∨
       2 > InMemoryLog.last_index
          { entries := [{ term := 1, data := [] }], prev_log_idx := 0, prev_log_term := 0,
            last_taken := 0, data_len := 0, data_capacity := 0 } + 1) := by
  constructor
  · decide
  · decide

--
-- Claim C9: index-0 queries of the log wrapper.
--

/-- Claim C9 (amended): for every state of the log wrapper, an entry lookup at
index 0 returns `None`; a term lookup at index 0 returns `Some(prev_term)` when
`prev_index = 0` (no entry discarded yet) and `None` otherwise. -/
theorem logstate_index_zero (ls : LogState) :
    ls.get 0 = none ∧
    (ls.prev_index = 0 → ls.get_term 0 = some ls.prev_term) ∧
    (¬ ls.prev_index = 0 → ls.get_term 0 = none) := by
  refine ⟨rfl, ?_, ?_⟩
  · intro h
    unfold LogState.get_term
    rw [if_pos h.symm]
  · intro h
    unfold LogState.get_term
    rw [if_neg fun hc => h hc.symm, if_pos rfl]

/-- Claim C9 (witness): the amended behavior evaluated on a wrapper whose log
has discarded one entry (`prev_index = 1`, `prev_term = 3`). -/
theorem logstate_index_zero_witness :
    LogState.get
        { log := { entries := [], prev_log_idx := 1, prev_log_term := 3, last_taken := 1,
                   data_len := 0, data_capacity := 0 }, commit_idx := 0 } 0 = none ∧
    LogState.get_term
        { log := { entries := [], prev_log_idx := 1, prev_log_term := 3, last_taken := 1,
                   data_len := 0, data_capacity := 0 }, commit_idx := 0 } 0 = none :=
  ⟨(logstate_index_zero _).1, (logstate_index_zero _).2.2 (by decide)⟩

/-- Claim C9 (counterexample): on a wrapper whose log has discarded one entry
(`prev_index = 1`), the term lookup at index 0 returns `None` rather than the
log's `prev_term` (= 3) as claimed. -/
theorem logstate_index_zero_claim_fails :
    ¬ (LogState.get
          { log := { entries := [], prev_log_idx := 1, prev_log_term := 3, last_taken := 1,
                     data_len := 0, data_capacity := 0 }, commit_idx := 0 } 0 = none ∧
       LogState.get_term
          { log := { entries := [], prev_log_idx := 1, prev_log_term := 3, last_taken := 1,
                     data_len := 0, data_capacity := 0 }, commit_idx := 0 } 0 =
        some (LogState.prev_term
          { log := { entries := [], prev_log_idx := 1, prev_log_term := 3, last_taken := 1,
                     data_len := 0, data_capacity := 0 }, commit_idx := 0 })) := by
  decide

--
-- Helper lemmas about leadership-guarded functions.
--

theorem become_leader_of_follower {s : RaftState} {ldr : Option Nat} {e r : Nat}
    (h : s.leadership = .follower ldr e r) : become_leader s = s := by
  unfold become_leader
  rw [h]

theorem advance_commit_idx_of_follower {s : RaftState} {ldr : Option Nat} {e r : Nat}
    (h : s.leadership = .follower ldr e r) : advance_commit_idx s = s := by
  unfold advance_commit_idx
  rw [h]

theorem update_term_of_le {s : RaftState} {t : Nat} (h : ¬ s.current_term < t) :
    update_term s t = s := by
  unfold update_term
  rw [if_neg h]

theorem update_term_of_lt {s : RaftState} {t : Nat} (h : s.current_term < t) :
    (update_term s t).current_term = t ∧ (update_term s t).voted_for = none ∧
    ∃ e r, (update_term s t).leadership = .follower none e r := by
  unfold update_term
  rw [if_pos h]
  exact ⟨rfl, rfl, _, _, rfl⟩

--
-- Claim C10: receipt of a message whose rpc field is empty.
--

/-- Claim C10: a `Message` with `rpc = None` from a known peer produces no direct
reply; if its term is newer the node adopts it, clears `voted_for`, and becomes a
follower with no known leader. -/
theorem receive_empty_rpc (s : RaftState) (t from_id : Nat) (h : from_id ∈ s.peers) :
    ∃ s', receive s { term := t, rpc := none } from_id = some (s', none) ∧
      (s.current_term < t →
        s'.current_term = t ∧ s'.voted_for = none ∧
        ∃ e r, s'.leadership = .follower none e r) := by
  refine ⟨advance_commit_idx (become_leader (update_term s t)), ?_, ?_⟩
  · unfold receive
    rw [if_neg (not_not_intro h)]
    rfl
  · intro hlt
    obtain ⟨h1, h2, e, r, h3⟩ := update_term_of_lt hlt
    rw [become_leader_of_follower h3, advance_commit_idx_of_follower h3]
    exact ⟨h1, h2, e, r, h3⟩

/-- Claim C10 (witness): a freshly constructed node with peers `{2, 3}` receiving
an empty-RPC message of term 3 from peer 2. -/
theorem receive_empty_rpc_witness :
    2 ∈ (RaftState.new 1 [1, 2, 3] (InMemoryLog.with_capacity 100) (fun _ => 0)
          { election_timeout_ticks := 5, heartbeat_interval_ticks := 1,
            replication_chunk_size := 100 }).peers ∧
    ∃ s', receive (RaftState.new 1 [1, 2, 3] (InMemoryLog.with_capacity 100) (fun _ => 0)
          { election_timeout_ticks := 5, heartbeat_interval_ticks := 1,
            replication_chunk_size := 100 }) { term := 3, rpc := none } 2 = some (s', none) ∧
      ((RaftState.new 1 [1, 2, 3] (InMemoryLog.with_capacity 100) (fun _ => 0)
          { election_timeout_ticks := 5, heartbeat_interval_ticks := 1,
            replication_chunk_size := 100 }).current_term < 3 →
        s'.current_term = 3 ∧ s'.voted_for = none ∧
        ∃ e r, s'.leadership = .follower none e r) :=
  ⟨by decide, receive_empty_rpc _ 3 2 (by decide)⟩

--
-- Claim C4: vote request handling.
--

/-- Reply produced by `handle_vote_request`: a `VoteResponse` carrying the
node's current term, granted exactly under the source's `grant` condition. -/
theorem handle_vote_request_reply (s : RaftState) (msg_term : Nat) (msg : VoteRequest)
    (from_id : Nat) (h : msg_term ≤ s.current_term) :
    (handle_vote_request s msg_term msg from_id).map (fun r => r.2) =
      some (some
        { message :=
            { term := s.current_term,
              rpc := some (.voteResponse
                { vote_granted :=
                    decide (msg_term = s.current_term ∧
                      (s.log.last_term < msg.last_log_term ∨
                        (msg.last_log_term = s.log.last_term ∧
                          s.log.last_index ≤ msg.last_log_idx)) ∧
                      (s.voted_for = none ∨ s.voted_for = some from_id)) }) },
          dest := .to from_id }) := by
  unfold handle_vote_request
  rw [if_neg (not_not_intro h)]
  by_cases hg : msg_term = s.current_term ∧
      (s.log.last_term < msg.last_log_term ∨
        (msg.last_log_term = s.log.last_term ∧ s.log.last_index ≤ msg.last_log_idx)) ∧
      (s.voted_for = none ∨ s.voted_for = some from_id)
  · cases hl : s.leadership <;> simp [hg, hl]
  · simp [hg]

/-- State change of `handle_vote_request` on a granted vote: `voted_for` is set to
the requester, the term is unchanged, and a follower's election timer is reset to
the stored full randomized value (other leadership states keep their leadership). -/
theorem handle_vote_request_granted (s : RaftState) (msg_term : Nat) (msg : VoteRequest)
    (from_id : Nat) (h : msg_term ≤ s.current_term)
    (hg : msg_term = s.current_term ∧
      (s.log.last_term < msg.last_log_term ∨
        (msg.last_log_term = s.log.last_term ∧ s.log.last_index ≤ msg.last_log_idx)) ∧
      (s.voted_for = none ∨ s.voted_for = some from_id)) :
    (handle_vote_request s msg_term msg from_id).map
        (fun r => (r.1.voted_for, r.1.current_term)) =
      some (some from_id, s.current_term) ∧
    (∀ ldr e rt, s.leadership = .follower ldr e rt →
      (handle_vote_request s msg_term msg from_id).map (fun r => r.1.leadership) =
        some (.follower ldr rt rt)) ∧
    (s.leadership.isFollower = false →
      (handle_vote_request s msg_term msg from_id).map (fun r => r.1.leadership) =
        some s.leadership) := by
  unfold handle_vote_request
  rw [if_neg (not_not_intro h)]
  refine ⟨?_, ?_, ?_⟩
  · cases hl : s.leadership <;> simp [hg, hl]
  · intro ldr e rt hl
    simp [hg, hl]
  · intro hf
    cases hl : s.leadership with
    | follower ldr e rt => rw [hl] at hf; cases hf
    | candidate v e => simp [hg, hl]
    | leader f hb => simp [hg, hl]

/-- State change of `handle_vote_request` on a rejected vote: none. -/
theorem handle_vote_request_rejected (s : RaftState) (msg_term : Nat) (msg : VoteRequest)
    (from_id : Nat) (h : msg_term ≤ s.current_term)
    (hg : ¬ (msg_term = s.current_term ∧
      (s.log.last_term < msg.last_log_term ∨
        (msg.last_log_term = s.log.last_term ∧ s.log.last_index ≤ msg.last_log_idx)) ∧
      (s.voted_for = none ∨ s.voted_for = some from_id))) :
    (handle_vote_request s msg_term msg from_id).map (fun r => r.1) = some s := by
  unfold handle_vote_request
  rw [if_neg (not_not_intro h)]
  simp [hg]

/-- Claim C4: a `VoteRequest` is granted iff the message's term equals the current
term, the candidate's log is at least as up to date (`log_ok`), and `voted_for`
is `None` or already the requester; on grant `voted_for` is set to the requester
and a follower's election timer is reset to the full randomized value; in every
case a `VoteResponse{vote_granted}` carrying the node's current term is sent back
to the requester. -/
theorem handle_vote_request_spec (s : RaftState) (msg_term : Nat) (msg : VoteRequest)
    (from_id : Nat) (h : msg_term ≤ s.current_term) :
    (handle_vote_request s msg_term msg from_id).map (fun r => r.2) =
      some (some
        { message :=
            { term := s.current_term,
              rpc := some (.voteResponse
                { vote_granted :=
                    decide (msg_term = s.current_term ∧
                      (s.log.last_term < msg.last_log_term ∨
                        (msg.last_log_term = s.log.last_term ∧
                          s.log.last_index ≤ msg.last_log_idx)) ∧
                      (s.voted_for = none ∨ s.voted_for = some from_id)) }) },
          dest := .to from_id }) ∧
    ((msg_term = s.current_term ∧
        (s.log.last_term < msg.last_log_term ∨
          (msg.last_log_term = s.log.last_term ∧ s.log.last_index ≤ msg.last_log_idx)) ∧
        (s.voted_for = none ∨ s.voted_for = some from_id)) →
      (handle_vote_request s msg_term msg from_id).map
          (fun r => (r.1.voted_for, r.1.current_term)) =
        some (some from_id, s.current_term) ∧
      (∀ ldr e rt, s.leadership = .follower ldr e rt →
        (handle_vote_request s msg_term msg from_id).map (fun r => r.1.leadership) =
          some (.follower ldr rt rt))) ∧
    (¬ (msg_term = s.current_term ∧
        (s.log.last_term < msg.last_log_term ∨
          (msg.last_log_term = s.log.last_term ∧ s.log.last_index ≤ msg.last_log_idx)) ∧
        (s.voted_for = none ∨ s.voted_for = some from_id)) →
      (handle_vote_request s msg_term msg from_id).map (fun r => r.1) = some s) := by
  refine ⟨handle_vote_request_reply s msg_term msg from_id h, ?_, ?_⟩
  · intro hg
    obtain ⟨h1, h2, _⟩ := handle_vote_request_granted s msg_term msg from_id h hg
    exact ⟨h1, h2⟩
  · intro hg
    exact handle_vote_request_rejected s msg_term msg from_id h hg

/-- Claim C4 (witness): a freshly constructed node (term 0, no vote cast) handling
a vote request from peer 2 whose log is as up to date; the granted reply carries
term 0. -/
theorem handle_vote_request_spec_witness :
    (0 ≤ (RaftState.new 1 [1, 2, 3] (InMemoryLog.with_capacity 100) (fun _ => 0)
          { election_timeout_ticks := 5, heartbeat_interval_ticks := 1,
            replication_chunk_size := 100 }).current_term) ∧
    ((handle_vote_request (RaftState.new 1 [1, 2, 3] (InMemoryLog.with_capacity 100)
          (fun _ => 0)
          { election_timeout_ticks := 5, heartbeat_interval_ticks := 1,
            replication_chunk_size := 100 }) 0 { last_log_idx := 0, last_log_term := 0 }
        2).map (fun r => (r.1.voted_for, r.1.current_term)) = some (some 2, 0)) := by
  refine ⟨Nat.zero_le _, ?_⟩
  have h := ((handle_vote_request_spec (RaftState.new 1 [1, 2, 3]
    (InMemoryLog.with_capacity 100) (fun _ => 0)
    { election_timeout_ticks := 5, heartbeat_interval_ticks := 1,
      replication_chunk_size := 100 }) 0 { last_log_idx := 0, last_log_term := 0 }
    2 (Nat.zero_le _)).2.1 (by constructor
                               · decide
                               · constructor
                                 · right
                                   constructor
                                   · decide
                                   · decide
                                 · left
                                   decide)).1
  exact h

--
-- Claim C7: client append errors.
--

theorem LogState.append_commit (ls : LogState) (e : LogEntry) :
    (ls.append e).1.commit_idx = ls.commit_idx := by
  unfold LogState.append
  cases h : ls.log.appendEntry e
  rfl

/-- Claim C7 (amended): `client_request(data)` returns `Cancelled` iff the node is
not the leader, and the cancelled error carries exactly the submitted data; when
the underlying log append fails on the leader, the call returns `LogErr` with
`current_term`, `voted_for`, leadership and `commit_idx` unchanged (the in-memory
log itself, however, may have evicted taken entries before failing). -/
theorem client_request_spec (s : RaftState) (data : List Nat) :
    ((∃ d, (client_request s data).2 = some (.cancelled d)) ↔ s.is_leader = false) ∧
    (∀ d, (client_request s data).2 = some (.cancelled d) → d = data) ∧
    (s.is_leader = true → (client_request s data).2 = some .logErr →
      (client_request s data).1.current_term = s.current_term ∧
      (client_request s data).1.voted_for = s.voted_for ∧
      (client_request s data).1.leadership = s.leadership ∧
      (client_request s data).1.log.commit_idx = s.log.commit_idx) := by
  unfold client_request
  cases hl : s.leadership with
  | follower ldr e rt =>
      refine ⟨by simp [RaftState.is_leader, hl], by simp, by simp [RaftState.is_leader, hl]⟩
  | candidate v e =>
      refine ⟨by simp [RaftState.is_leader, hl], by simp, by simp [RaftState.is_leader, hl]⟩
  | leader f hb =>
      have hcommit := LogState.append_commit s.log { term := s.current_term, data := data }
      cases happ : s.log.append { term := s.current_term, data := data } with
      | mk log2 ok =>
          rw [happ] at hcommit
          cases ok with
          | true =>
              refine ⟨by simp [RaftState.is_leader, hl, happ], by simp [happ],
                      fun _ hc => ?_⟩
              simp [happ] at hc
          | false =>
              refine ⟨by simp [RaftState.is_leader, hl, happ], by simp [happ],
                      fun _ _ => ?_⟩
              simp only [happ]
              exact ⟨trivial, trivial, trivial, hcommit⟩

/-- Claim C7 (counterexample): on the leader `c7LeaderState`, appending one more
byte makes the in-memory log evict its taken front entry and then fail, so
`client_request` returns `LogErr` with the node's log state mutated
(`prev_index` moves from 0 to 1) — refuting the claim that the state is
unchanged. -/
theorem client_request_logerr_mutates :
    (client_request c7LeaderState [9]).2 = some .logErr ∧
    ¬ (client_request c7LeaderState [9]).1.log = c7LeaderState.log ∧
    (client_request c7LeaderState [9]).1.log.log.prev_log_idx = 1 ∧
    c7LeaderState.log.log.prev_log_idx = 0 := by
  refine ⟨by decide, by decide, by decide, by decide⟩

/-- Claim C7 (witness): the amended theorem applied to `c7LeaderState` with a
failing append: `LogErr` is returned while term, vote, leadership and commit
index are untouched; and applied to a fresh follower, where the append is
cancelled with its own data. -/
theorem client_request_spec_witness :
    (c7LeaderState.is_leader = true ∧
      (client_request c7LeaderState [9]).2 = some .logErr ∧
      (client_request c7LeaderState [9]).1.current_term = c7LeaderState.current_term) ∧
    ((∃ d, (client_request (RaftState.new 1 [1, 2] (InMemoryLog.with_capacity 10)
        (fun _ => 0) { election_timeout_ticks := 5, heartbeat_interval_ticks := 1,
                       replication_chunk_size := 100 }) [4]).2 = some (.cancelled d))) := by
  constructor
  · refine ⟨by decide, by decide, ?_⟩
    exact ((client_request_spec c7LeaderState [9]).2.2 (by decide) (by decide)).1
  · exact ((client_request_spec (RaftState.new 1 [1, 2] (InMemoryLog.with_capacity 10)
      (fun _ => 0) { election_timeout_ticks := 5, heartbeat_interval_ticks := 1,
                     replication_chunk_size := 100 }) [4]).1).mpr (by decide)

theorem lookupFollower_updateFollower :
    ∀ (fs : List (Nat × ReplicationState)) (k : Nat) (r' : ReplicationState),
      lookupFollower (updateFollower fs k r') k =
        if (lookupFollower fs k).isSome then some r' else none
  | [], k, r' => rfl
  | (k0, r0) :: tl, k, r' => by
      by_cases hk : k0 = k
      · subst hk
        simp [updateFollower, lookupFollower]
      · simp [updateFollower, lookupFollower, hk, lookupFollower_updateFollower tl k r']

theorem rewindNext_le (logSt : LogState) (m : Nat) :
    ∀ fuel chunk next, rewindNext logSt m fuel chunk next ≤ next := by
  intro fuel
  induction fuel with
  | zero => intro chunk next; exact Nat.le_refl _
  | succ fuel ih =>
      intro chunk next
      unfold rewindNext
      cases next with
      | zero => exact Nat.le_refl _
      | succ n =>
          by_cases hm : n ≤ m
          · simp [hm]
          · simp only [if_neg hm]
            split
            · exact Nat.le_refl _
            · split
              · exact Nat.le_refl _
              · exact Nat.le_trans (ih _ n) (Nat.le_succ n)

theorem rewindNext_ge (logSt : LogState) (m : Nat) :
    ∀ fuel chunk next, m + 1 ≤ next → m + 1 ≤ rewindNext logSt m fuel chunk next := by
  intro fuel
  induction fuel with
  | zero => intro chunk next h; exact h
  | succ fuel ih =>
      intro chunk next h
      unfold rewindNext
      cases next with
      | zero => exact h
      | succ n =>
          by_cases hm : n ≤ m
          · simp only [if_pos hm]
            exact h
          · simp only [if_neg hm]
            split
            · exact h
            · split
              · exact h
              · exact ih _ n (by omega)

/-- Claim C8: delivering the same `AppendResponse` twice in a row advances the
follower's `match_idx` and `next_idx` no further than the first delivery did
(the match index is unchanged and the next index does not increase). -/
theorem handle_append_response_idempotent (s s1 s2 : RaftState) (msg : AppendResponse)
    (from_id : Nat) (r1 r2 : Option SendableMessage) (rep1 rep2 : ReplicationState)
    (h1 : handle_append_response s s.current_term msg from_id = some (s1, r1))
    (h2 : handle_append_response s1 s1.current_term msg from_id = some (s2, r2))
    (hrep1 : s1.replication_state from_id = some rep1)
    (hrep2 : s2.replication_state from_id = some rep2) :
    rep2.match_idx = rep1.match_idx ∧ rep2.next_idx ≤ rep1.next_idx := by
  unfold handle_append_response at h1
  rw [if_neg (not_not_intro rfl)] at h1
  cases hl : s.leadership with
  | follower ldr e rt =>
      rw [hl] at h1
      simp only [Option.some.injEq, Prod.mk.injEq] at h1
      obtain ⟨h1s, h1r⟩ := h1
      subst h1s
      simp [RaftState.replication_state, hl] at hrep1
  | candidate v e =>
      rw [hl] at h1
      simp only [Option.some.injEq, Prod.mk.injEq] at h1
      obtain ⟨h1s, h1r⟩ := h1
      subst h1s
      simp [RaftState.replication_state, hl] at hrep1
  | leader fs hb =>
      rw [hl] at h1
      cases hf : lookupFollower fs from_id with
      | none =>
          simp only [hf, Option.some.injEq, Prod.mk.injEq] at h1
          obtain ⟨h1s, h1r⟩ := h1
          subst h1s
          simp [RaftState.replication_state, hl, hf] at hrep1
      | some repl =>
          cases hs : msg.success with
          | true =>
              simp only [hf, hs, if_true, Option.some.injEq, Prod.mk.injEq] at h1
              obtain ⟨h1s, h1r⟩ := h1
              subst h1s
              simp only [RaftState.replication_state, lookupFollower_updateFollower, hf,
                Option.isSome_some, if_true, Option.some.injEq] at hrep1
              subst hrep1
              unfold handle_append_response at h2
              rw [if_neg (not_not_intro rfl)] at h2
              simp only [lookupFollower_updateFollower, hf, Option.isSome_some, if_true,
                hs, Option.some.injEq, Prod.mk.injEq] at h2
              obtain ⟨h2s, h2r⟩ := h2
              subst h2s
              simp only [RaftState.replication_state, lookupFollower_updateFollower, hf,
                Option.isSome_some, if_true, Option.some.injEq] at hrep2
              subst hrep2
              constructor
              · dsimp only
                split_ifs <;> omega
              · dsimp only
                split_ifs <;> omega
          | false =>
              simp only [hf, hs, Bool.false_eq_true, if_false, Option.some.injEq,
                Prod.mk.injEq] at h1
              obtain ⟨h1s, h1r⟩ := h1
              subst h1s
              simp only [RaftState.replication_state, lookupFollower_updateFollower, hf,
                Option.isSome_some, if_true, Option.some.injEq] at hrep1
              subst hrep1
              unfold handle_append_response at h2
              rw [if_neg (not_not_intro rfl)] at h2
              simp only [lookupFollower_updateFollower, hf, Option.isSome_some, if_true,
                hs, Bool.false_eq_true, if_false, Option.some.injEq, Prod.mk.injEq] at h2
              obtain ⟨h2s, h2r⟩ := h2
              subst h2s
              simp only [RaftState.replication_state, lookupFollower_updateFollower, hf,
                Option.isSome_some, if_true, Option.some.injEq] at hrep2
              subst hrep2
              refine ⟨rfl, ?_⟩
              dsimp only
              have hge : msg.match_idx + 1 ≤
                  rewindNext s.log msg.match_idx
                    (max (min (repl.next_idx - 1) (msg.last_log_idx + 1)) (msg.match_idx + 1))
                    s.config.replication_chunk_size
                    (max (min (repl.next_idx - 1) (msg.last_log_idx + 1)) (msg.match_idx + 1)) :=
                rewindNext_ge _ _ _ _ _ (Nat.le_max_right _ _)
              refine Nat.le_trans (rewindNext_le _ _ _ _ _) ?_
              exact max_le (Nat.le_trans (Nat.min_le_left _ _) (by omega)) hge

/-- Claim C8 (witness): delivering the same successful `AppendResponse` with
`match_idx = 3` twice to the leader `c8State` leaves the follower's indices where
the first delivery put them. -/
theorem handle_append_response_idempotent_witness :
    c8Repl.match_idx = c8Repl.match_idx ∧ c8Repl.next_idx ≤ c8Repl.next_idx :=
  handle_append_response_idempotent c8State c8State c8State
    { success := true, match_idx := 3, last_log_idx := 0 } 2 none none c8Repl c8Repl
    rfl rfl rfl rfl

--
-- Claim C2: AppendResponse rejection handling (probe mode).
--

/-- Claim C2 (amended): on a failed `AppendResponse` from a known follower the
leader raises `send_probe`, clears `inflight`, leaves `match_idx` alone, and sets
`next_idx` to `max(match_idx+1, min(next_idx-1, msg.last_log_idx+1))` and then
rewinds it further, one entry at a time, while the accumulated approximate entry
sizes fit in `replication_chunk_size`; the final `next_idx` is therefore at most
the clamped value (and at least `msg.match_idx + 1`), not necessarily equal to it. -/
theorem handle_append_response_failure (s : RaftState) (msg : AppendResponse)
    (from_id : Nat) (fs : List (Nat × ReplicationState)) (hb : Nat)
    (repl : ReplicationState)
    (hl : s.leadership = .leader fs hb)
    (hf : lookupFollower fs from_id = some repl)
    (hs : msg.success = false) :
    ∀ s' r', handle_append_response s s.current_term msg from_id = some (s', r') →
      ∃ rep', s'.replication_state from_id = some rep' ∧
        rep'.send_probe = true ∧ rep'.inflight = none ∧
        rep'.match_idx = repl.match_idx ∧
        msg.match_idx + 1 ≤ rep'.next_idx ∧
        rep'.next_idx ≤ max (min (repl.next_idx - 1) (msg.last_log_idx + 1))
                            (msg.match_idx + 1) := by
  intro s' r' heq
  unfold handle_append_response at heq
  rw [if_neg (not_not_intro rfl)] at heq
  rw [hl] at heq
  simp only [hf, hs, Bool.false_eq_true, if_false, Option.some.injEq, Prod.mk.injEq] at heq
  obtain ⟨h1s, h1r⟩ := heq
  subst h1s
  refine ⟨{ next_idx := rewindNext s.log msg.match_idx
               (max (min (repl.next_idx - 1) (msg.last_log_idx + 1)) (msg.match_idx + 1))
               s.config.replication_chunk_size
               (max (min (repl.next_idx - 1) (msg.last_log_idx + 1)) (msg.match_idx + 1)),
            match_idx := repl.match_idx, inflight := none, send_probe := true,
            send_heartbeat := repl.send_heartbeat }, ?_, rfl, rfl, rfl, ?_, ?_⟩
  · simp only [RaftState.replication_state, lookupFollower_updateFollower, hf,
      Option.isSome_some, if_true]
  · exact rewindNext_ge _ _ _ _ _ (Nat.le_max_right _ _)
  · exact rewindNext_le _ _ _ _ _

/-- Claim C2 (counterexample): with `next_idx = 1000` and a rejection carrying
`last_log_idx = 10`, the follower's `next_idx` after processing is 1 — the
clamp to `min(999, 11) = 11` is followed by the chunk-budget rewind — so the
claimed final value of exactly 11 is wrong (only ``not 999`` survives). -/
theorem handle_append_response_probe_claim_fails :
    ((handle_append_response c2State c2State.current_term
        { success := false, match_idx := 0, last_log_idx := 10 } 2).map
      (fun r => (r.1.replication_state 2).map (fun rep => rep.next_idx))) =
        some (some 1) ∧
    ¬ ((handle_append_response c2State c2State.current_term
        { success := false, match_idx := 0, last_log_idx := 10 } 2).map
      (fun r => (r.1.replication_state 2).map (fun rep => rep.next_idx))) =
        some (some (min (1000 - 1) (10 + 1))) := by
  constructor
  · decide
  · decide

/-- Claim C2 (witness): the amended bounds evaluated on the probe-collapse
scenario itself. -/
theorem handle_append_response_failure_witness :
    c2State.leadership = .leader [(2, c2Repl)] 0 ∧
    (∃ rep', c2After.replication_state 2 = some rep' ∧
      rep'.send_probe = true ∧ rep'.inflight = none ∧
      rep'.match_idx = c2Repl.match_idx ∧
      AppendResponse.match_idx { success := false, match_idx := 0, last_log_idx := 10 } + 1 ≤
        rep'.next_idx ∧
      rep'.next_idx ≤
        max (min (c2Repl.next_idx - 1)
              (AppendResponse.last_log_idx
                { success := false, match_idx := 0, last_log_idx := 10 } + 1))
            (AppendResponse.match_idx
              { success := false, match_idx := 0, last_log_idx := 10 } + 1)) := by
  refine ⟨rfl, ?_⟩
  exact handle_append_response_failure c2State
    { success := false, match_idx := 0, last_log_idx := 10 } 2 [(2, c2Repl)] 0 c2Repl
    rfl rfl rfl c2After none (by with_unfolding_all rfl)

--
-- Claim C3: AppendRequest replies.
--

theorem nextElectionTimeout_snd_current_term (s : RaftState) :
    (nextElectionTimeout s).2.current_term = s.current_term := rfl

theorem nextElectionTimeout_snd_log (s : RaftState) :
    (nextElectionTimeout s).2.log = s.log := rfl

/-- Claim C3: an `AppendRequest` (at a term not above the node's, and not hitting
the fatal leader-at-same-term path) is answered with
`AppendResponse{success=false, match_idx=prev_index, last_log_idx=last_index}`
when `msg.term < current_term` or (`msg.term = current_term` and the log check
fails), leaving the log untouched; otherwise with `AppendResponse{success=true,
match_idx=min(prev_log_idx+|entries|, last_index), last_log_idx=last_index}`,
where `last_index` is the node's log tail at reply time. -/
theorem handle_append_request_spec (s : RaftState) (msg_term : Nat) (msg : AppendRequest)
    (from_id : Nat) :
    ∀ s' reply, handle_append_request s msg_term msg from_id = some (s', reply) →
      if msg_term < s.current_term ∨ (msg_term = s.current_term ∧
          ¬ (msg.prev_log_idx = 0 ∨ some msg.prev_log_term = s.log.get_term msg.prev_log_idx))
      then
        reply = some
            { message :=
                { term := s.current_term,
                  rpc := some (.appendResponse
                    { success := false, match_idx := s.log.prev_index,
                      last_log_idx := s.log.last_index }) },
              dest := .to from_id } ∧
          s'.log = s.log
      else
        reply = some
            { message :=
                { term := s'.current_term,
                  rpc := some (.appendResponse
                    { success := true,
                      match_idx := min (msg.prev_log_idx + msg.entries.length)
                                       (s'.log.last_index),
                      last_log_idx := s'.log.last_index }) },
              dest := .to from_id } := by
  intro s' reply heq
  unfold handle_append_request at heq
  by_cases hle : msg_term ≤ s.current_term
  · rw [if_neg (not_not_intro hle)] at heq
    by_cases hterm : msg_term = s.current_term
    · rw [if_pos hterm] at heq
      split at heq
      · -- candidate: becomes follower of the sender
        simp only [Option.bind_eq_bind, Option.some_bind,
          nextElectionTimeout_snd_current_term, nextElectionTimeout_snd_log] at heq
        rw [if_neg (show ¬ msg_term < s.current_term from by omega)] at heq
        rw [if_neg (not_not_intro hterm)] at heq
        simp only [LeadershipState.isFollower] at heq
        simp only [not_true, if_false] at heq
        by_cases hlog : msg.prev_log_idx = 0 ∨
            some msg.prev_log_term = s.log.get_term msg.prev_log_idx
        · rw [if_neg (not_not_intro hlog)] at heq
          split at heq
          · cases heq
          · simp only [Option.some.injEq, Prod.mk.injEq] at heq
            obtain ⟨h1s, h1r⟩ := heq
            subst h1s
            subst h1r
            rw [if_neg (show ¬ (msg_term < s.current_term ∨ (msg_term = s.current_term ∧
              ¬ (msg.prev_log_idx = 0 ∨
                 some msg.prev_log_term = s.log.get_term msg.prev_log_idx)))
              from fun hc => hc.elim (fun hlt => absurd hterm (Nat.ne_of_lt hlt))
                                     (fun hc2 => hc2.2 hlog))]
        · rw [if_pos hlog] at heq
          simp only [Option.some.injEq, Prod.mk.injEq] at heq
          obtain ⟨h1s, h1r⟩ := heq
          subst h1s
          subst h1r
          rw [if_pos (Or.inr ⟨hterm, hlog⟩)]
          exact ⟨rfl, rfl⟩
      · -- follower: records the sender as leader
        simp only [Option.bind_eq_bind, Option.some_bind] at heq
        rw [if_neg (show ¬ msg_term < s.current_term from by omega)] at heq
        rw [if_neg (not_not_intro hterm)] at heq
        simp only [LeadershipState.isFollower] at heq
        simp only [not_true, if_false] at heq
        by_cases hlog : msg.prev_log_idx = 0 ∨
            some msg.prev_log_term = s.log.get_term msg.prev_log_idx
        · rw [if_neg (not_not_intro hlog)] at heq
          split at heq
          · cases heq
          · simp only [Option.some.injEq, Prod.mk.injEq] at heq
            obtain ⟨h1s, h1r⟩ := heq
            subst h1s
            subst h1r
            rw [if_neg (show ¬ (msg_term < s.current_term ∨ (msg_term = s.current_term ∧
              ¬ (msg.prev_log_idx = 0 ∨
                 some msg.prev_log_term = s.log.get_term msg.prev_log_idx)))
              from fun hc => hc.elim (fun hlt => absurd hterm (Nat.ne_of_lt hlt))
                                     (fun hc2 => hc2.2 hlog))]
        · rw [if_pos hlog] at heq
          simp only [Option.some.injEq, Prod.mk.injEq] at heq
          obtain ⟨h1s, h1r⟩ := heq
          subst h1s
          subst h1r
          rw [if_pos (Or.inr ⟨hterm, hlog⟩)]
          exact ⟨rfl, rfl⟩
      · -- leader at the same term: the source panics, no reply exists
        simp at heq
    · rw [if_neg hterm] at heq
      simp only [Option.bind_eq_bind, Option.some_bind] at heq
      have hlt : msg_term < s.current_term := by omega
      rw [if_pos hlt] at heq
      simp only [Option.some.injEq, Prod.mk.injEq] at heq
      obtain ⟨h1s, h1r⟩ := heq
      subst h1s
      subst h1r
      rw [if_pos (Or.inl hlt)]
      exact ⟨rfl, rfl⟩
  · rw [if_pos hle] at heq
    cases heq

/-- Claim C3 (witness): a fresh follower accepting a one-entry append replies
`success = true` with `match_idx = min(prev_log_idx + 1, last_index) = 1`. -/
theorem handle_append_request_spec_witness :
    some c3Reply = some
      { message := { term := c3After.current_term,
                     rpc := some (.appendResponse
                       { success := true,
                         match_idx := min (c3Msg.prev_log_idx + c3Msg.entries.length)
                                          c3After.log.last_index,
                         last_log_idx := c3After.log.last_index }) },
        dest := .to 2 } := by
  have h := handle_append_request_spec c3State 0 c3Msg 2 c3After (some c3Reply)
    (by with_unfolding_all rfl)
  rw [if_neg (by decide)] at h
  exact h

--
-- Claim C5: commit-index invariant.  Log-level lemmas first.
--

theorem pop_front_last_index {l l' : InMemoryLog} (h : l.pop_front = some l') :
    l'.last_index = l.last_index := by
  unfold InMemoryLog.pop_front at h
  cases he : l.entry_index l.last_taken with
  | none => rw [he] at h; cases h
  | some k =>
      rw [he] at h
      simp only [Option.bind_eq_bind, Option.some_bind] at h
      cases hl : l.entries with
      | nil => rw [hl] at h; cases h
      | cons e rest =>
          rw [hl] at h
          injection h with h
          subst h
          unfold InMemoryLog.last_index
          simp only [hl, List.length_cons]
          omega

theorem appendLoop_last_index (n : Nat) :
    ∀ fuel l, ((InMemoryLog.appendLoop n fuel l).1).last_index = l.last_index := by
  intro fuel
  induction fuel with
  | zero => intro l; rfl
  | succ fuel ih =>
      intro l
      unfold InMemoryLog.appendLoop
      split
      · rfl
      · split
        · rfl
        · rename_i l' hpop
          rw [ih l']
          exact pop_front_last_index hpop

theorem appendEntry_last_index (l : InMemoryLog) (e : LogEntry) :
    ((l.appendEntry e).2 = true → (l.appendEntry e).1.last_index = l.last_index + 1) ∧
    ((l.appendEntry e).2 = false → (l.appendEntry e).1.last_index = l.last_index) := by
  unfold InMemoryLog.appendEntry
  split
  · refine ⟨fun h => ?_, fun _ => rfl⟩
    simp at h
  · have hlast := appendLoop_last_index e.data.length (l.entries.length + 1) l
    cases hm : InMemoryLog.appendLoop e.data.length (l.entries.length + 1) l with
    | mk l2 ok =>
        rw [hm] at hlast
        cases ok with
        | true =>
            refine ⟨fun _ => ?_, fun hc => by simp at hc⟩
            dsimp only at hlast
            show InMemoryLog.last_index { l2 with entries := l2.entries ++ [e] } =
              l.last_index + 1
            unfold InMemoryLog.last_index at hlast ⊢
            simp only [List.length_append, List.length_cons, List.length_nil]
            omega
        | false => exact ⟨fun hc => by simp at hc, fun _ => hlast⟩

theorem LogState.append_last_index (ls : LogState) (e : LogEntry) :
    ((ls.append e).2 = true → (ls.append e).1.log.last_index = ls.log.last_index + 1) ∧
    ((ls.append e).2 = false → (ls.append e).1.log.last_index = ls.log.last_index) := by
  unfold LogState.append
  have := appendEntry_last_index ls.log e
  cases h : ls.log.appendEntry e with
  | mk l2 ok =>
      rw [h] at this
      exact this

theorem cancel_from_facts (l : InMemoryLog) (i : Nat) :
    ∀ l' n, l.cancel_from i = some (l', n) →
      l'.last_index = i - 1 ∧ l.prev_log_idx < i ∧ i ≤ l.last_index := by
  intro l' n h
  rw [cancel_from_eq] at h
  split at h
  · rename_i hc
    simp only [Option.some.injEq, Prod.mk.injEq] at h
    obtain ⟨h1, h2⟩ := h
    subst h1
    refine ⟨?_, hc.1, hc.2⟩
    unfold InMemoryLog.last_index at hc ⊢
    simp only [List.length_take]
    omega
  · cases h

theorem LogState.cancel_from_facts2 (ls : LogState) (i : Nat) :
    ∀ ls' n, ls.cancel_from i = some (ls', n) →
      ls'.commit_idx = ls.commit_idx ∧ ls'.log.last_index = i - 1 ∧
      i ≤ ls.log.last_index := by
  intro ls' n h
  unfold LogState.cancel_from at h
  cases hc : ls.log.cancel_from i with
  | none => rw [hc] at h; cases h
  | some res =>
      obtain ⟨l2, m⟩ := res
      rw [hc] at h
      simp only [Option.some.injEq, Prod.mk.injEq] at h
      obtain ⟨h1, h2⟩ := h
      subst h1
      obtain ⟨hf1, hf2, hf3⟩ := cancel_from_facts ls.log i l2 m hc
      exact ⟨rfl, hf1, hf3⟩

theorem get_le_last {l : InMemoryLog} {i : Nat} {e : LogEntry} (h : l.get i = some e) :
    i ≤ l.last_index := by
  unfold InMemoryLog.get at h
  cases hk : l.entry_index i with
  | none => rw [hk] at h; cases h
  | some k =>
      rw [hk] at h
      simp only [Option.bind_eq_bind, Option.some_bind] at h
      obtain ⟨hlen, _⟩ := List.get?_eq_some.mp h
      obtain ⟨hi, hk2⟩ := entry_index_eq_some.mp hk
      unfold InMemoryLog.last_index
      omega

theorem LogState.get_term_le_last {ls : LogState} {i t : Nat} (h : ls.get_term i = some t) :
    i ≤ ls.log.last_index := by
  unfold LogState.get_term at h
  split at h
  · rename_i hp
    rw [hp]
    unfold LogState.prev_index InMemoryLog.last_index
    exact Nat.le_add_right _ _
  · split at h
    · cases h
    · unfold InMemoryLog.get_term at h
      split at h
      · cases hg : ls.log.get i with
        | none => rw [hg] at h; cases h
        | some e => exact get_le_last hg
      · rename_i hne1 hne2 hnp
        exfalso
        exact hne1 (by simpa [LogState.prev_index] using Decidable.not_not.mp hnp)

theorem advance_commit_idx_spec (s : RaftState) :
    (advance_commit_idx s).log.log = s.log.log ∧
    s.log.commit_idx ≤ (advance_commit_idx s).log.commit_idx ∧
    (s.log.commit_idx ≤ s.log.log.last_index →
      (advance_commit_idx s).log.commit_idx ≤ s.log.log.last_index) := by
  unfold advance_commit_idx
  cases hl : s.leadership with
  | follower ldr e r => exact ⟨rfl, Nat.le_refl _, fun hc => hc⟩
  | candidate v e => exact ⟨rfl, Nat.le_refl _, fun hc => hc⟩
  | leader followers hb =>
      refine ⟨rfl, ?_, ?_⟩
      · dsimp only
        split
        · split
          · exact Nat.le_max_left _ _
          · exact Nat.le_refl _
        · exact Nat.le_refl _
      · intro hc
        dsimp only
        split
        · rename_i a hm
          split
          · rename_i hg
            exact Nat.max_le.mpr ⟨hc, LogState.get_term_le_last hg⟩
          · exact hc
        · exact hc

theorem walkEntries_commit (es : List LogEntry) :
    ∀ s p s' lp, walkEntries s p es = some (s', lp) →
      s'.log.commit_idx = s.log.commit_idx := by
  induction es with
  | nil =>
      intro s p s' lp h
      unfold walkEntries at h
      simp only [Option.some.injEq, Prod.mk.injEq] at h
      obtain ⟨h1, -⟩ := h
      subst h1
      rfl
  | cons e rest ih =>
      intro s p s' lp h
      unfold walkEntries at h
      dsimp only at h
      split at h
      · have hcom := LogState.append_commit s.log e
        cases ha : s.log.append e with
        | mk log2 ok =>
            rw [ha] at h hcom
            cases ok with
            | true =>
                dsimp only at h hcom
                rw [ih _ _ _ _ h]
                exact hcom
            | false =>
                dsimp only at h hcom
                simp only [Option.some.injEq, Prod.mk.injEq] at h
                obtain ⟨h1, -⟩ := h
                subst h1
                exact hcom
      · cases hg : s.log.get_term (p + 1) with
        | none =>
            rw [hg] at h
            dsimp only at h
            simp only [Option.some.injEq, Prod.mk.injEq] at h
            obtain ⟨h1, -⟩ := h
            subst h1
            rfl
        | some tm =>
            rw [hg] at h
            dsimp only at h
            split at h
            · split at h
              · cases h
              · cases hcf : s.log.cancel_from (p + 1) with
                | none =>
                    rw [hcf] at h
                    simp only [Option.some.injEq, Prod.mk.injEq] at h
                    obtain ⟨h1, -⟩ := h
                    subst h1
                    rfl
                | some res =>
                    obtain ⟨log2, m⟩ := res
                    rw [hcf] at h
                    dsimp only at h
                    obtain ⟨hcc, -, -⟩ := LogState.cancel_from_facts2 s.log (p + 1) log2 m hcf
                    have hcom := LogState.append_commit log2 e
                    cases ha2 : LogState.append log2 e with
                    | mk log3 ok2 =>
                        rw [ha2] at h hcom
                        cases ok2 with
                        | true =>
                            dsimp only at h hcom
                            rw [ih _ _ _ _ h]
                            exact hcom.trans hcc
                        | false =>
                            dsimp only at h hcom
                            simp only [Option.some.injEq, Prod.mk.injEq] at h
                            obtain ⟨h1, -⟩ := h
                            subst h1
                            exact hcom.trans hcc
            · exact ih _ _ _ _ h

theorem walkEntries_bounds (es : List LogEntry) :
    ∀ s p s' lp, p ≤ s.log.log.last_index → s.log.commit_idx ≤ s.log.log.last_index →
      walkEntries s p es = some (s', lp) →
      lp ≤ s'.log.log.last_index ∧ s'.log.commit_idx ≤ s'.log.log.last_index := by
  induction es with
  | nil =>
      intro s p s' lp hp hc h
      unfold walkEntries at h
      simp only [Option.some.injEq, Prod.mk.injEq] at h
      obtain ⟨h1, h2⟩ := h
      subst h1
      subst h2
      exact ⟨hp, hc⟩
  | cons e rest ih =>
      intro s p s' lp hp hc h
      unfold walkEntries at h
      dsimp only at h
      split at h
      · rename_i hi
        unfold LogState.last_index at hi
        have hlast := LogState.append_last_index s.log e
        have hcom := LogState.append_commit s.log e
        cases ha : s.log.append e with
        | mk log2 ok =>
            rw [ha] at h hlast hcom
            cases ok with
            | true =>
                dsimp only at h hlast hcom
                have h2 := hlast.1 rfl
                refine ih _ _ _ _ ?_ ?_ h
                · show p + 1 ≤ log2.log.last_index
                  omega
                · show log2.commit_idx ≤ log2.log.last_index
                  omega
            | false =>
                dsimp only at h hlast hcom
                have h2 := hlast.2 rfl
                simp only [Option.some.injEq, Prod.mk.injEq] at h
                obtain ⟨h1, h3⟩ := h
                subst h1
                subst h3
                constructor
                · show p ≤ log2.log.last_index
                  omega
                · show log2.commit_idx ≤ log2.log.last_index
                  omega
      · cases hg : s.log.get_term (p + 1) with
        | none =>
            rw [hg] at h
            dsimp only at h
            simp only [Option.some.injEq, Prod.mk.injEq] at h
            obtain ⟨h1, h3⟩ := h
            subst h1
            subst h3
            exact ⟨hp, hc⟩
        | some tm =>
            rw [hg] at h
            dsimp only at h
            have hgle := LogState.get_term_le_last hg
            split at h
            · split at h
              · cases h
              · rename_i hnn
                have hcl : s.log.commit_idx < p + 1 := Decidable.not_not.mp hnn
                cases hcf : s.log.cancel_from (p + 1) with
                | none =>
                    rw [hcf] at h
                    simp only [Option.some.injEq, Prod.mk.injEq] at h
                    obtain ⟨h1, h3⟩ := h
                    subst h1
                    subst h3
                    exact ⟨hp, hc⟩
                | some res =>
                    obtain ⟨log2, m⟩ := res
                    rw [hcf] at h
                    dsimp only at h
                    obtain ⟨hcc, hli, hle2⟩ :=
                      LogState.cancel_from_facts2 s.log (p + 1) log2 m hcf
                    have hlast := LogState.append_last_index log2 e
                    have hcom := LogState.append_commit log2 e
                    cases ha2 : LogState.append log2 e with
                    | mk log3 ok2 =>
                        rw [ha2] at h hlast hcom
                        cases ok2 with
                        | true =>
                            dsimp only at h hlast hcom
                            have h2 := hlast.1 rfl
                            refine ih _ _ _ _ ?_ ?_ h
                            · show p + 1 ≤ log3.log.last_index
                              omega
                            · show log3.commit_idx ≤ log3.log.last_index
                              omega
                        | false =>
                            dsimp only at h hlast hcom
                            have h2 := hlast.2 rfl
                            simp only [Option.some.injEq, Prod.mk.injEq] at h
                            obtain ⟨h1, h3⟩ := h
                            subst h1
                            subst h3
                            constructor
                            · show p ≤ log3.log.last_index
                              omega
                            · show log3.commit_idx ≤ log3.log.last_index
                              omega
            · exact ih _ _ _ _ hgle hc h

theorem update_term_log (s : RaftState) (t : Nat) : (update_term s t).log = s.log := by
  unfold update_term
  split
  · rfl
  · rfl

theorem log_eq_spec5 (s0 s1 : RaftState) (h : s1.log = s0.log) :
    s0.log.commit_idx ≤ s1.log.commit_idx ∧
    (s0.log.commit_idx ≤ s0.log.log.last_index →
      s1.log.commit_idx ≤ s1.log.log.last_index) := by
  rw [h]
  exact ⟨Nat.le_refl _, fun hc => hc⟩

theorem handle_vote_request_log (s : RaftState) (t : Nat) (m : VoteRequest) (f : Nat) :
    ∀ s' r, handle_vote_request s t m f = some (s', r) → s'.log = s.log := by
  intro s' r h
  unfold handle_vote_request at h
  dsimp only at h
  split at h
  · cases h
  · simp only [Option.some.injEq, Prod.mk.injEq] at h
    obtain ⟨h1, -⟩ := h
    subst h1
    split
    · dsimp only
      split <;> rfl
    · rfl

theorem handle_vote_response_log (s : RaftState) (t : Nat) (m : VoteResponse) (f : Nat) :
    ∀ s' r, handle_vote_response s t m f = some (s', r) → s'.log = s.log := by
  intro s' r h
  unfold handle_vote_response at h
  split at h
  · cases h
  · split at h
    all_goals try split at h
    all_goals simp only [Option.some.injEq, Prod.mk.injEq] at h
    all_goals obtain ⟨h1, -⟩ := h
    all_goals subst h1
    all_goals rfl

theorem handle_append_response_log (s : RaftState) (t : Nat) (m : AppendResponse) (f : Nat) :
    ∀ s' r, handle_append_response s t m f = some (s', r) → s'.log = s.log := by
  intro s' r h
  unfold handle_append_response at h
  split at h
  · cases h
  · split at h
    all_goals try split at h
    all_goals simp only [Option.some.injEq, Prod.mk.injEq] at h
    all_goals obtain ⟨h1, -⟩ := h
    all_goals subst h1
    all_goals rfl

theorem append_entries_log (s : RaftState) (i : Nat) :
    (append_entries s i).1.log = s.log := by
  unfold append_entries
  cases hl : s.leadership with
  | follower ldr e r => rfl
  | candidate v e => rfl
  | leader followers hb =>
      dsimp only
      split
      · rfl
      · split
        · rfl
        · split
          · rfl
          · split
            · rfl
            · rfl

theorem foldl_append_entries_log (ps : List Nat) :
    ∀ s : RaftState, (ps.foldl (fun st p => (append_entries st p).1) s).log = s.log := by
  induction ps with
  | nil => intro s; rfl
  | cons p rest ih =>
      intro s
      simp only [List.foldl_cons]
      rw [ih ((append_entries s p).1), append_entries_log]

theorem append_entries_all_log (s : RaftState) : (append_entries_all s).log = s.log :=
  foldl_append_entries_log s.peers s

theorem client_request_spec5 (s : RaftState) (data : List Nat) :
    s.log.commit_idx ≤ (client_request s data).1.log.commit_idx ∧
    (s.log.commit_idx ≤ s.log.log.last_index →
      (client_request s data).1.log.commit_idx ≤
        (client_request s data).1.log.log.last_index) := by
  unfold client_request
  cases hl : s.leadership with
  | follower ldr e r => exact ⟨Nat.le_refl _, fun hc => hc⟩
  | candidate v e => exact ⟨Nat.le_refl _, fun hc => hc⟩
  | leader followers hb =>
      dsimp only
      have hcom := LogState.append_commit s.log { term := s.current_term, data := data }
      have hlast := LogState.append_last_index s.log { term := s.current_term, data := data }
      cases ha : s.log.append { term := s.current_term, data := data } with
      | mk log2 ok =>
          rw [ha] at hcom hlast
          cases ok with
          | true =>
              dsimp only at hcom hlast ⊢
              have h2 := hlast.1 rfl
              obtain ⟨ha0, ha1, ha2⟩ := advance_commit_idx_spec
                { s with leadership := .leader followers hb, log := log2 }
              constructor
              · refine Nat.le_trans ?_ ha1
                show s.log.commit_idx ≤ log2.commit_idx
                omega
              · intro hc
                have hc2 : log2.commit_idx ≤ log2.log.last_index := by omega
                rw [ha0]
                exact ha2 hc2
          | false =>
              dsimp only at hcom hlast ⊢
              have h2 := hlast.2 rfl
              constructor
              · show s.log.commit_idx ≤ log2.commit_idx
                omega
              · intro hc
                show log2.commit_idx ≤ log2.log.last_index
                omega

theorem become_leader_spec5 (s : RaftState) :
    s.log.commit_idx ≤ (become_leader s).log.commit_idx ∧
    (s.log.commit_idx ≤ s.log.log.last_index →
      (become_leader s).log.commit_idx ≤ (become_leader s).log.log.last_index) := by
  unfold become_leader
  cases hl : s.leadership with
  | follower ldr e r => exact ⟨Nat.le_refl _, fun hc => hc⟩
  | leader followers hb => exact ⟨Nat.le_refl _, fun hc => hc⟩
  | candidate v e =>
      dsimp only
      split
      · exact client_request_spec5
          { s with leadership := .leader (s.peers.map fun id =>
              (id, { next_idx := s.log.last_index + 1, match_idx := 0, inflight := none,
                     send_probe := false, send_heartbeat := false })) 0 } []
      · exact ⟨Nat.le_refl _, fun hc => hc⟩

theorem finishReceive_spec5 (s1 : RaftState) :
    s1.log.commit_idx ≤ (advance_commit_idx (become_leader s1)).log.commit_idx ∧
    (s1.log.commit_idx ≤ s1.log.log.last_index →
      (advance_commit_idx (become_leader s1)).log.commit_idx ≤
        (advance_commit_idx (become_leader s1)).log.log.last_index) := by
  obtain ⟨hb1, hb2⟩ := become_leader_spec5 s1
  obtain ⟨ha0, ha1, ha2⟩ := advance_commit_idx_spec (become_leader s1)
  constructor
  · exact Nat.le_trans hb1 ha1
  · intro hc
    rw [ha0]
    exact ha2 (hb2 hc)

theorem receive_wrap_spec5 (s0 s1 : RaftState)
    (h1 : s0.log.commit_idx ≤ s1.log.commit_idx)
    (h2 : s0.log.commit_idx ≤ s0.log.log.last_index →
      s1.log.commit_idx ≤ s1.log.log.last_index) :
    s0.log.commit_idx ≤ (advance_commit_idx (become_leader s1)).log.commit_idx ∧
    (s0.log.commit_idx ≤ s0.log.log.last_index →
      (advance_commit_idx (become_leader s1)).log.commit_idx ≤
        (advance_commit_idx (become_leader s1)).log.log.last_index) := by
  obtain ⟨hf1, hf2⟩ := finishReceive_spec5 s1
  exact ⟨Nat.le_trans h1 hf1, fun hc => hf2 (h2 hc)⟩

theorem timeout_spec5 (s : RaftState) :
    s.log.commit_idx ≤ (timeout s).1.log.commit_idx ∧
    (s.log.commit_idx ≤ s.log.log.last_index →
      (timeout s).1.log.commit_idx ≤ (timeout s).1.log.log.last_index) := by
  unfold timeout
  cases hl : s.leadership with
  | leader followers hb => exact ⟨Nat.le_refl _, fun hc => hc⟩
  | follower ldr e rt =>
      dsimp only
      generalize h2 : nextElectionTimeout
          { s with current_term := s.current_term + 1,
                   voted_for := some s.node_id, leadership := .follower ldr e rt } = pr
      obtain ⟨et, s2⟩ := pr
      have hx : s2.log = s.log := by
        have hy := nextElectionTimeout_snd_log
          { s with current_term := s.current_term + 1,
                   voted_for := some s.node_id, leadership := .follower ldr e rt }
        rw [h2] at hy
        exact hy
      constructor
      · rw [← hx]
        exact (finishReceive_spec5 { s2 with leadership := .candidate [s2.node_id] et }).1
      · intro hc
        rw [← hx] at hc
        exact (finishReceive_spec5 { s2 with leadership := .candidate [s2.node_id] et }).2 hc
  | candidate v e =>
      dsimp only
      generalize h2 : nextElectionTimeout
          { s with current_term := s.current_term + 1,
                   voted_for := some s.node_id, leadership := .candidate v e } = pr
      obtain ⟨et, s2⟩ := pr
      have hx : s2.log = s.log := by
        have hy := nextElectionTimeout_snd_log
          { s with current_term := s.current_term + 1,
                   voted_for := some s.node_id, leadership := .candidate v e }
        rw [h2] at hy
        exact hy
      constructor
      · rw [← hx]
        exact (finishReceive_spec5 { s2 with leadership := .candidate [s2.node_id] et }).1
      · intro hc
        rw [← hx] at hc
        exact (finishReceive_spec5 { s2 with leadership := .candidate [s2.node_id] et }).2 hc

theorem timer_tick_spec5 (s : RaftState) :
    s.log.commit_idx ≤ (timer_tick s).1.log.commit_idx ∧
    (s.log.commit_idx ≤ s.log.log.last_index →
      (timer_tick s).1.log.commit_idx ≤ (timer_tick s).1.log.log.last_index) := by
  unfold timer_tick
  cases hl : s.leadership with
  | follower ldr e rt =>
      dsimp only
      cases he : e - 1 with
      | zero => exact timeout_spec5 s
      | succ n => exact ⟨Nat.le_refl _, fun hc => hc⟩
  | candidate v e =>
      dsimp only
      cases he : e - 1 with
      | zero => exact timeout_spec5 s
      | succ n => exact ⟨Nat.le_refl _, fun hc => hc⟩
  | leader followers hb =>
      dsimp only
      cases he : hb - 1 with
      | zero => exact ⟨Nat.le_refl _, fun hc => hc⟩
      | succ n => exact ⟨Nat.le_refl _, fun hc => hc⟩

theorem walkEntries_bounds2 (es : List LogEntry) (s : RaftState) (p : Nat)
    (s' : RaftState) (lp : Nat) (h : walkEntries s p es = some (s', lp))
    (hp : p ≤ s.log.log.last_index) (hc : s.log.commit_idx ≤ s.log.log.last_index) :
    lp ≤ s'.log.log.last_index ∧ s'.log.commit_idx ≤ s'.log.log.last_index :=
  walkEntries_bounds es s p s' lp hp hc h

theorem handle_append_request_spec5 (s : RaftState) (msg_term : Nat) (msg : AppendRequest)
    (from_id : Nat) :
    ∀ s' reply, handle_append_request s msg_term msg from_id = some (s', reply) →
      s.log.commit_idx ≤ s'.log.commit_idx ∧
      (s.log.commit_idx ≤ s.log.log.last_index →
        s'.log.commit_idx ≤ s'.log.log.last_index) := by
  intro s' reply heq
  unfold handle_append_request at heq
  by_cases hle : msg_term ≤ s.current_term
  · rw [if_neg (not_not_intro hle)] at heq
    by_cases hterm : msg_term = s.current_term
    · rw [if_pos hterm] at heq
      split at heq
      · -- candidate: becomes follower of the sender, then the common endgame
        simp only [Option.bind_eq_bind, Option.some_bind,
          nextElectionTimeout_snd_current_term, nextElectionTimeout_snd_log] at heq
        rw [if_neg (show ¬ msg_term < s.current_term from by omega)] at heq
        rw [if_neg (not_not_intro hterm)] at heq
        simp only [LeadershipState.isFollower] at heq
        simp only [not_true, if_false] at heq
        by_cases hlog : msg.prev_log_idx = 0 ∨
            some msg.prev_log_term = s.log.get_term msg.prev_log_idx
        · rw [if_neg (not_not_intro hlog)] at heq
          split at heq
          · cases heq
          · rename_i s2 lp hw
            simp only [Option.some.injEq, Prod.mk.injEq] at heq
            obtain ⟨h1s, -⟩ := heq
            subst h1s
            have hcom0 := walkEntries_commit msg.entries _ _ _ _ hw
            have hcom2 : s2.log.commit_idx = s.log.commit_idx := hcom0
            constructor
            · split
              · rename_i hlt
                dsimp only
                omega
              · omega
            · intro hc
              have hp : msg.prev_log_idx ≤ s.log.log.last_index := by
                cases hlog with
                | inl h0 => rw [h0]; exact Nat.zero_le _
                | inr hsome => exact LogState.get_term_le_last hsome.symm
              obtain ⟨hb1, hb2⟩ := walkEntries_bounds2 msg.entries _ _ _ _ hw hp hc
              split
              · rename_i hlt
                dsimp only
                omega
              · exact hb2
        · rw [if_pos hlog] at heq
          simp only [Option.some.injEq, Prod.mk.injEq] at heq
          obtain ⟨h1s, -⟩ := heq
          subst h1s
          exact ⟨Nat.le_refl _, fun hc => hc⟩
      · -- follower: records the sender as leader, same endgame
        simp only [Option.bind_eq_bind, Option.some_bind] at heq
        rw [if_neg (show ¬ msg_term < s.current_term from by omega)] at heq
        rw [if_neg (not_not_intro hterm)] at heq
        simp only [LeadershipState.isFollower] at heq
        simp only [not_true, if_false] at heq
        by_cases hlog : msg.prev_log_idx = 0 ∨
            some msg.prev_log_term = s.log.get_term msg.prev_log_idx
        · rw [if_neg (not_not_intro hlog)] at heq
          split at heq
          · cases heq
          · rename_i s2 lp hw
            simp only [Option.some.injEq, Prod.mk.injEq] at heq
            obtain ⟨h1s, -⟩ := heq
            subst h1s
            have hcom0 := walkEntries_commit msg.entries _ _ _ _ hw
            have hcom2 : s2.log.commit_idx = s.log.commit_idx := hcom0
            constructor
            · split
              · rename_i hlt
                dsimp only
                omega
              · omega
            · intro hc
              have hp : msg.prev_log_idx ≤ s.log.log.last_index := by
                cases hlog with
                | inl h0 => rw [h0]; exact Nat.zero_le _
                | inr hsome => exact LogState.get_term_le_last hsome.symm
              obtain ⟨hb1, hb2⟩ := walkEntries_bounds2 msg.entries _ _ _ _ hw hp hc
              split
              · rename_i hlt
                dsimp only
                omega
              · exact hb2
        · rw [if_pos hlog] at heq
          simp only [Option.some.injEq, Prod.mk.injEq] at heq
          obtain ⟨h1s, -⟩ := heq
          subst h1s
          exact ⟨Nat.le_refl _, fun hc => hc⟩
      · -- leader at the same term: the source panics
        simp at heq
    · rw [if_neg hterm] at heq
      simp only [Option.bind_eq_bind, Option.some_bind] at heq
      have hlt : msg_term < s.current_term := by omega
      rw [if_pos hlt] at heq
      simp only [Option.some.injEq, Prod.mk.injEq] at heq
      obtain ⟨h1s, -⟩ := heq
      subst h1s
      exact ⟨Nat.le_refl _, fun hc => hc⟩
  · rw [if_pos hle] at heq
    cases heq

theorem receive_spec5 (s : RaftState) (msg : Message) (f : Nat) :
    ∀ s' r, receive s msg f = some (s', r) →
      s.log.commit_idx ≤ s'.log.commit_idx ∧
      (s.log.commit_idx ≤ s.log.log.last_index →
        s'.log.commit_idx ≤ s'.log.log.last_index) := by
  intro s' r h
  unfold receive at h
  split at h
  · simp only [Option.some.injEq, Prod.mk.injEq] at h
    obtain ⟨h1, -⟩ := h
    subst h1
    exact ⟨Nat.le_refl _, fun hc => hc⟩
  · have hul := update_term_log s msg.term
    cases hrpc : msg.rpc with
    | none =>
        rw [hrpc] at h
        dsimp only at h
        simp only [Option.bind_eq_bind, Option.some_bind, Option.some.injEq,
          Prod.mk.injEq] at h
        obtain ⟨h1, -⟩ := h
        subst h1
        have hw := receive_wrap_spec5 (update_term s msg.term) (update_term s msg.term)
          (Nat.le_refl _) (fun hc => hc)
        rw [hul] at hw
        exact hw
    | some rpc =>
        cases rpc with
        | voteRequest vr =>
            rw [hrpc] at h
            dsimp only at h
            cases hd : handle_vote_request (update_term s msg.term) msg.term vr f with
            | none =>
                rw [hd] at h
                simp only [Option.bind_eq_bind, Option.none_bind] at h
                cases h
            | some p =>
                obtain ⟨s1, reply⟩ := p
                rw [hd] at h
                simp only [Option.bind_eq_bind, Option.some_bind, Option.some.injEq,
                  Prod.mk.injEq] at h
                obtain ⟨h1, -⟩ := h
                subst h1
                obtain ⟨ha, hb⟩ := log_eq_spec5 (update_term s msg.term) s1
                  (handle_vote_request_log _ _ _ _ _ _ hd)
                have hw := receive_wrap_spec5 _ _ ha hb
                rw [hul] at hw
                exact hw
        | voteResponse vr =>
            rw [hrpc] at h
            dsimp only at h
            by_cases hst : msg.term < (update_term s msg.term).current_term
            · rw [if_pos hst] at h
              simp only [Option.bind_eq_bind, Option.some_bind, Option.some.injEq,
                Prod.mk.injEq] at h
              obtain ⟨h1, -⟩ := h
              subst h1
              have hw := receive_wrap_spec5 (update_term s msg.term) (update_term s msg.term)
                (Nat.le_refl _) (fun hc => hc)
              rw [hul] at hw
              exact hw
            · rw [if_neg hst] at h
              cases hd : handle_vote_response (update_term s msg.term) msg.term vr f with
              | none =>
                  rw [hd] at h
                  simp only [Option.bind_eq_bind, Option.none_bind] at h
                  cases h
              | some p =>
                  obtain ⟨s1, reply⟩ := p
                  rw [hd] at h
                  simp only [Option.bind_eq_bind, Option.some_bind, Option.some.injEq,
                    Prod.mk.injEq] at h
                  obtain ⟨h1, -⟩ := h
                  subst h1
                  obtain ⟨ha, hb⟩ := log_eq_spec5 (update_term s msg.term) s1
                    (handle_vote_response_log _ _ _ _ _ _ hd)
                  have hw := receive_wrap_spec5 _ _ ha hb
                  rw [hul] at hw
                  exact hw
        | appendRequest ar =>
            rw [hrpc] at h
            dsimp only at h
            cases hd : handle_append_request (update_term s msg.term) msg.term ar f with
            | none =>
                rw [hd] at h
                simp only [Option.bind_eq_bind, Option.none_bind] at h
                cases h
            | some p =>
                obtain ⟨s1, reply⟩ := p
                rw [hd] at h
                simp only [Option.bind_eq_bind, Option.some_bind, Option.some.injEq,
                  Prod.mk.injEq] at h
                obtain ⟨h1, -⟩ := h
                subst h1
                obtain ⟨ha, hb⟩ :=
                  handle_append_request_spec5 (update_term s msg.term) msg.term ar f s1 reply hd
                have hw := receive_wrap_spec5 _ _ ha hb
                rw [hul] at hw
                exact hw
        | appendResponse ar =>
            rw [hrpc] at h
            dsimp only at h
            by_cases hst : msg.term < (update_term s msg.term).current_term
            · rw [if_pos hst] at h
              simp only [Option.bind_eq_bind, Option.some_bind, Option.some.injEq,
                Prod.mk.injEq] at h
              obtain ⟨h1, -⟩ := h
              subst h1
              have hw := receive_wrap_spec5 (update_term s msg.term) (update_term s msg.term)
                (Nat.le_refl _) (fun hc => hc)
              rw [hul] at hw
              exact hw
            · rw [if_neg hst] at h
              cases hd : handle_append_response (update_term s msg.term) msg.term ar f with
              | none =>
                  rw [hd] at h
                  simp only [Option.bind_eq_bind, Option.none_bind] at h
                  cases h
              | some p =>
                  obtain ⟨s1, reply⟩ := p
                  rw [hd] at h
                  simp only [Option.bind_eq_bind, Option.some_bind, Option.some.injEq,
                    Prod.mk.injEq] at h
                  obtain ⟨h1, -⟩ := h
                  subst h1
                  obtain ⟨ha, hb⟩ := log_eq_spec5 (update_term s msg.term) s1
                    (handle_append_response_log _ _ _ _ _ _ hd)
                  have hw := receive_wrap_spec5 _ _ ha hb
                  rw [hul] at hw
                  exact hw

theorem nodeStep_spec5 (s : RaftState) (ev : Event) :
    ∀ s', nodeStep s ev = some s' →
      s.log.commit_idx ≤ s'.log.commit_idx ∧
      (s.log.commit_idx ≤ s.log.log.last_index →
        s'.log.commit_idx ≤ s'.log.log.last_index) := by
  intro s' h
  cases ev with
  | clientAppend data =>
      unfold nodeStep at h
      dsimp only at h
      have hs := client_request_spec5 s data
      cases hc : client_request s data with
      | mk s1 err =>
          rw [hc] at h hs
          dsimp only at hs
          cases err with
          | some e =>
              dsimp only at h
              simp only [Option.some.injEq] at h
              subst h
              exact hs
          | none =>
              dsimp only at h
              simp only [Option.some.injEq] at h
              subst h
              have halog := append_entries_all_log s1
              constructor
              · rw [halog]
                exact hs.1
              · intro hcc
                rw [halog]
                exact hs.2 hcc
  | deliver msg f =>
      unfold nodeStep at h
      dsimp only at h
      cases hr : receive s msg f with
      | none =>
          rw [hr] at h
          simp at h
      | some p =>
          obtain ⟨s1, reply⟩ := p
          rw [hr] at h
          simp only [Option.map_some', Option.some.injEq] at h
          subst h
          obtain ⟨hm1, hm2⟩ := receive_spec5 s msg f s1 reply hr
          have halog := append_entries_all_log s1
          constructor
          · rw [halog]
            exact hm1
          · intro hcc
            rw [halog]
            exact hm2 hcc
  | tick =>
      unfold nodeStep at h
      dsimp only at h
      simp only [Option.some.injEq] at h
      subst h
      have htt := timer_tick_spec5 s
      have halog := append_entries_all_log (timer_tick s).1
      constructor
      · rw [halog]
        exact htt.1
      · intro hcc
        rw [halog]
        exact htt.2 hcc

theorem run_spec5 (evs : List Event) :
    ∀ s : RaftState, s.log.commit_idx ≤ (run s evs).log.commit_idx ∧
      (s.log.commit_idx ≤ s.log.log.last_index →
        (run s evs).log.commit_idx ≤ (run s evs).log.log.last_index) := by
  induction evs with
  | nil => intro s; exact ⟨Nat.le_refl _, fun hc => hc⟩
  | cons e rest ih =>
      intro s
      unfold run
      cases hn : nodeStep s e with
      | none => exact ⟨Nat.le_refl _, fun hc => hc⟩
      | some s1 =>
          obtain ⟨h1, h2⟩ := nodeStep_spec5 s e s1 hn
          obtain ⟨h3, h4⟩ := ih s1
          exact ⟨Nat.le_trans h1 h3, fun hc => h4 (h2 hc)⟩

theorem run_prefix_mono (pre : List Event) :
    ∀ (s : RaftState) (post : List Event),
      (run s pre).log.commit_idx ≤ (run s (pre ++ post)).log.commit_idx := by
  induction pre with
  | nil =>
      intro s post
      exact (run_spec5 post s).1
  | cons e rest ih =>
      intro s post
      show (match nodeStep s e with | none => s | some s1 => run s1 rest).log.commit_idx ≤
        (match nodeStep s e with | none => s | some s1 => run s1 (rest ++ post)).log.commit_idx
      cases nodeStep s e with
      | none => exact Nat.le_refl _
      | some s1 => exact ih s1 post

--
-- Claim C5: commit-index invariant.
--

/-- Claim C5: starting from a freshly constructed node, for every sequence of
client-append, message-delivery and timer-tick events and every split of it into
a prefix and a remainder, after the prefix `commit_idx` never exceeds
`last_index`, and processing the remaining events never decreases `commit_idx`. -/
theorem commit_idx_invariant (node_id : Nat) (peers : List Nat) (log : InMemoryLog)
    (randSeq : Nat → Nat) (config : Config) (pre post : List Event) :
    (run (RaftState.new node_id peers log randSeq config) pre).log.commit_idx ≤
      (run (RaftState.new node_id peers log randSeq config) pre).log.last_index ∧
    (run (RaftState.new node_id peers log randSeq config) pre).log.commit_idx ≤
      (run (RaftState.new node_id peers log randSeq config) (pre ++ post)).log.commit_idx := by
  constructor
  · exact (run_spec5 pre (RaftState.new node_id peers log randSeq config)).2
      (Nat.zero_le _)
  · exact run_prefix_mono pre (RaftState.new node_id peers log randSeq config) post

end Raft
